import Mathlib

/-! # Stay-Discipline: goal ledger and analytics

A shallow embedding of `backend/routes/journal.js`, `backend/routes/analytics.js`
and `backend/models/Journal.js`, and the properties of the goal ledger and of the
analytics engine proved about it.

Conventions of the embedding.

* JavaScript `Date` values are counted in whole days since 1 January 1970; the
  functions `daysInYear`, `dayFromYear`, `yearFromDay`, `monthFromDay`,
  `dateFromDay`, `makeDay`, `makeFullYear` and `timeClip` are the abstract
  operations of the same names in the ECMAScript specification of `Date`
  (`YearFromTime`, `MonthFromTime`, `DateFromTime` there take milliseconds).
  `NaN` (an invalid date) is `none`.
* Integers that are JavaScript numbers are `Nat` or `Int`.  An integer of a
  request body becomes the nearest binary64 number or `Infinity` (`toNumber`)
  and `parseInt` reads its string (`parseInt`).  The sums of the statistics are
  those of the integers, which is what JavaScript computes while they stay below
  2^53; the properties that state them carry that bound.  `Math.round((a / b) * 100)` is
  embedded with the binary64 roundings made explicit (`fl`).
* The document store is a list of journals; a request handler is a function from
  the store to the new store and the response.
-/

namespace StayDiscipline

/-! ## `Date` arithmetic (ECMAScript, section "Time Values and Time Range") -/

/-- Number of days of year `y`: ECMAScript `DaysInYear`. -/
def daysInYear (y : Int) : Int :=
  if y % 4 ≠ 0 then 365
  else if y % 100 ≠ 0 then 366
  else if y % 400 ≠ 0 then 365
  else 366

/-- Day number of 1 January of year `y`: ECMAScript `DayFromYear`. -/
def dayFromYear (y : Int) : Int :=
  365 * (y - 1970) + (y - 1969) / 4 - (y - 1901) / 100 + (y - 1601) / 400

/-- ECMAScript `YearFromTime`: the largest `y` with `dayFromYear y ≤ day`
(see `yearFromDay_spec`).  The candidate `y0` is one below the estimate from the
mean year length of 146097 / 400 days. -/
def yearFromDay (day : Int) : Int :=
  let y0 := 1970 + (400 * day) / 146097 - 1
  if dayFromYear (y0 + 2) ≤ day then y0 + 2
  else if dayFromYear (y0 + 1) ≤ day then y0 + 1
  else y0

/-- ECMAScript `InLeapYear`, as 0 or 1. -/
def inLeapYear (y : Int) : Int :=
  if daysInYear y = 366 then 1 else 0

/-- ECMAScript `DayWithinYear`. -/
def dayWithinYear (day : Int) : Int :=
  day - dayFromYear (yearFromDay day)

/-- ECMAScript `MonthFromTime`: month index 0..11 of a day number. -/
def monthFromDay (day : Int) : Int :=
  let d := dayWithinYear day
  let leap := inLeapYear (yearFromDay day)
  if d < 31 then 0
  else if d < 59 + leap then 1
  else if d < 90 + leap then 2
  else if d < 120 + leap then 3
  else if d < 151 + leap then 4
  else if d < 181 + leap then 5
  else if d < 212 + leap then 6
  else if d < 243 + leap then 7
  else if d < 273 + leap then 8
  else if d < 304 + leap then 9
  else if d < 334 + leap then 10
  else 11

/-- ECMAScript `DateFromTime`: day of the month 1..31 of a day number. -/
def dateFromDay (day : Int) : Int :=
  let d := dayWithinYear day
  let leap := inLeapYear (yearFromDay day)
  match monthFromDay day with
  | 0 => d + 1
  | 1 => d - 30
  | 2 => d - 58 - leap
  | 3 => d - 89 - leap
  | 4 => d - 119 - leap
  | 5 => d - 150 - leap
  | 6 => d - 180 - leap
  | 7 => d - 211 - leap
  | 8 => d - 242 - leap
  | 9 => d - 272 - leap
  | 10 => d - 303 - leap
  | _ => d - 333 - leap

/-- Day within the year of the first day of month index `mn` (0..11). -/
def monthStart (mn : Int) (leap : Int) : Int :=
  match mn with
  | 0 => 0
  | 1 => 31
  | 2 => 59 + leap
  | 3 => 90 + leap
  | 4 => 120 + leap
  | 5 => 151 + leap
  | 6 => 181 + leap
  | 7 => 212 + leap
  | 8 => 243 + leap
  | 9 => 273 + leap
  | 10 => 304 + leap
  | _ => 334 + leap

/-- ECMAScript `MakeDay(year, month, date)` on integers: the day number of the
first day of month index `month mod 12` of year `year + ⌊month / 12⌋`, plus
`date - 1`. -/
def makeDay (year month date : Int) : Int :=
  let ym := year + month / 12
  let mn := month % 12
  dayFromYear ym + monthStart mn (inLeapYear ym) + date - 1

/-- ECMAScript `MakeFullYear`: the `Date` constructor reads a year 0..99 as
1900..1999. -/
def makeFullYear (year : Int) : Int :=
  if 0 ≤ year ∧ year ≤ 99 then 1900 + year else year

/-- ECMAScript `TimeClip`, in days: a time value is at most 8.64e15 ms, that is
100 000 000 days, away from the epoch; anything further is `NaN`.  A last day of
a month is never day ±100 000 000 (13 September 275760 and 20 April -271821), so
the offset of the server's time zone, less than a day, does not move a month end
across the bound. -/
def timeClip (day : Int) : Option Int :=
  if day.natAbs ≤ 100000000 then some day else none

/-- The helper of `journal.js` and `analytics.js` (lines 8-10 of both):
`new Date(year, month, 0).getDate()`.  `month` is used as a month index, so day 0
is the last day of the calendar month `month`; `none` is `NaN`. -/
def getDaysInMonth (month year : Int) : Option Nat :=
  match timeClip (makeDay (makeFullYear year) month 0) with
  | some day => some (dateFromDay day).toNat
  | none => none

/-- Length of a month in the Gregorian calendar, as the specification words it:
31 for months 1, 3, 5, 7, 8, 10, 12, 30 for months 4, 6, 9, 11, and for month 2,
29 when the year is divisible by 4 and (not by 100 or by 400), otherwise 28. -/
def gregorianMonthLength (month year : Int) : Nat :=
  if month = 2 then
    if year % 4 = 0 ∧ (year % 100 ≠ 0 ∨ year % 400 = 0) then 29 else 28
  else if month = 4 ∨ month = 6 ∨ month = 9 ∨ month = 11 then 30
  else 31

/-! ## The journal document (`backend/models/Journal.js`) and the store -/

/-- A goal subdocument of a journal: `_id`, `goalName`, `points`, `days`. -/
structure Goal where
  id : Nat
  goalName : String
  points : Nat
  days : List Bool
  deriving DecidableEq, Repr

/-- A journal document: one per user and calendar month. -/
structure Journal where
  userId : Nat
  year : Int
  month : Int
  goals : List Goal
  deriving DecidableEq, Repr

/-- The collection of journal documents. -/
abbrev Store := List Journal

/-- What a request handler answers: `res.json(journal)`, or
`res.status(400 | 404 | 500).json({ message })`.  Status 400 is the
specification's `ValidationError`, 404 its `NotFoundError`; 500 is what the
`catch` block of every handler sends when anything throws. -/
inductive Response where
  | ok (journal : Journal)
  | badRequest (message : String)
  | notFound (message : String)
  | serverError
  deriving DecidableEq, Repr

/-- The query `{ userId, year, month }` of `Journal.findOne`. -/
def matchesKey (userId : Nat) (year month : Int) (j : Journal) : Bool :=
  decide (j.userId = userId ∧ j.year = year ∧ j.month = month)

/-- The query of `Journal.findOne` by user, year and month: the first matching
document. -/
def findOne (store : Store) (userId : Nat) (year month : Int) : Option Journal :=
  store.find? (matchesKey userId year month)

/-- The call `journal.save()`: the document takes the place of the stored document of its
key, or is inserted when there is none.  The document is written as it stands. -/
def save (store : Store) (journal : Journal) : Store :=
  match store with
  | [] => [journal]
  | j :: rest =>
    if matchesKey journal.userId journal.year journal.month j then journal :: rest
    else j :: save rest journal

/-- The validators of the schema on `month` (`min: 1`, `max: 12`), which `save`
runs on a new document; a failed validation throws. -/
def validMonth (month : Int) : Bool :=
  decide (1 ≤ month ∧ month ≤ 12)

/-- The lookup `journal.goals.id(goalId)`: the first subdocument with that `_id`. -/
def goalById (goals : List Goal) (goalId : Nat) : Option Goal :=
  goals.find? (fun g => decide (g.id = goalId))

/-- An assignment through the subdocument that `journal.goals.id(goalId)`
returned: the first goal with that `_id` is changed in place. -/
def modifyGoal (goals : List Goal) (goalId : Nat) (f : Goal → Goal) : List Goal :=
  match goals with
  | [] => []
  | g :: rest =>
    if g.id = goalId then f g :: rest else g :: modifyGoal rest goalId f

/-- The removal `journal.goals.id(goalId).remove()`: the first goal with that `_id` leaves
the array. -/
def removeGoalById (goals : List Goal) (goalId : Nat) : List Goal :=
  match goals with
  | [] => []
  | g :: rest =>
    if g.id = goalId then rest else g :: removeGoalById rest goalId

/-! ## Binary64 numbers -/

/-- A non-negative finite binary64 number, held as the fraction `num / den` with
`den` a power of two.  The exponent range of the format is not part of the
embedding: quotients of integers below 2^53 are far from it. -/
structure Float64 where
  num : Nat
  den : Nat
  deriving DecidableEq, Repr

/-- The integer nearest to `n / d`, a tie going to the even neighbour: the
rounding of every binary64 operation. -/
def roundHalfEven (n d : Nat) : Nat :=
  let q := n / d
  let r := n % d
  if 2 * r < d then q
  else if d < 2 * r then q + 1
  else if q % 2 = 0 then q
  else q + 1

/-- The loop computing `⌊log₂ n⌋` for `n ≥ 1`, by halving. -/
def log2Loop : Nat → Nat → Nat
  | 0, _ => 0
  | fuel + 1, n => if 2 ≤ n then log2Loop fuel (n / 2) + 1 else 0

/-- The integer `⌊log₂ n⌋` for `n ≥ 1`. -/
def log2Floor (n : Nat) : Nat :=
  log2Loop n n

/-- The integer `⌊log₂ (n / d)⌋` for `n, d ≥ 1`: the difference of the two logarithms, or
one less when `n / d` is below that power of two. -/
def log2Ratio (n d : Nat) : Int :=
  let k : Int := (log2Floor n : Int) - (log2Floor d : Int)
  if n * 2 ^ (-k).toNat < d * 2 ^ k.toNat then k - 1 else k

/-- The binary64 number nearest to `n / d`, for `d ≥ 1`: `n / d` is scaled by
the power of two that brings it into `[2^52, 2^53)`, rounded to an integer of 53
bits, and scaled back. -/
def fl (n d : Nat) : Float64 :=
  if n = 0 then { num := 0, den := 1 }
  else
    let e : Int := log2Ratio n d - 52
    let up := (-e).toNat
    let down := e.toNat
    { num := roundHalfEven (n * 2 ^ up) (d * 2 ^ down) * 2 ^ down, den := 2 ^ up }

/-- The quotient `a / b` of two integers as JavaScript computes it. -/
def Float64.divide (a b : Nat) : Float64 :=
  fl a b

/-- The product `x * k` of a number and an integer as JavaScript computes it. -/
def Float64.times (x : Float64) (k : Nat) : Float64 :=
  fl (x.num * k) x.den

/-- JavaScript `Math.round(x)`: the integer nearest to `x`, a tie going up. -/
def Float64.round (x : Float64) : Nat :=
  (2 * x.num + x.den) / (2 * x.den)

/-- The binary64 number nearest to the integer `n`, a tie going to the even
significand: the number that an integer written in a JSON body becomes.  Up to
2^53 every integer is a binary64 number; from `2^1024 - 2^970` on, halfway
between the largest binary64 number and 2^1024, the number is `Infinity`, which
is `none`. -/
def toNumber (n : Nat) : Option Nat :=
  if n < 2 ^ 53 then some n
  else if 2 ^ 1024 - 2 ^ 970 ≤ n then none
  else
    let e := log2Floor n - 52
    some (roundHalfEven n (2 ^ e) * 2 ^ e)

/-- The loop counting the decimal digits of `n ≥ 1`, by division by 10. -/
def digitsLoop : Nat → Nat → Nat
  | 0, _ => 1
  | fuel + 1, n => if 10 ≤ n then digitsLoop fuel (n / 10) + 1 else 1

/-- The number of decimal digits of `n ≥ 1`. -/
def decimalDigits (n : Nat) : Nat :=
  digitsLoop n n

/-- ECMAScript `Number::toString` writes the number `x` with the digits of an
integer `s` of `k` digits such that `s * 10^(n - k)` rounds to `x`.  For given
`k` and `n` the two integers next to `x / 10^(n - k)` are tried; the result is
the first digit of `s`. -/
def firstDigitWith (x k n : Nat) : Option Nat :=
  let scale := 10 ^ (n - k)
  let s := x / scale
  if 10 ^ (k - 1) ≤ s ∧ s < 10 ^ k ∧ toNumber (s * scale) = some x then
    some (s / 10 ^ (k - 1))
  else if 10 ^ (k - 1) ≤ s + 1 ∧ s + 1 < 10 ^ k ∧ toNumber ((s + 1) * scale) = some x then
    some ((s + 1) / 10 ^ (k - 1))
  else none

/-- The search of `Number::toString` for the least number of digits `k`, from
`k` on, for a number of `digits` decimal digits (`n` is `digits`, or
`digits + 1` when the digits round up to a power of ten). -/
def firstDigitLoop (x digits : Nat) : Nat → Nat → Nat
  | 0, _ => x / 10 ^ (digits - 1)
  | fuel + 1, k =>
    match firstDigitWith x k digits with
    | some digit => digit
    | none =>
      match firstDigitWith x k (digits + 1) with
      | some digit => digit
      | none => firstDigitLoop x digits fuel (k + 1)

/-- JavaScript `parseInt(x)` for a number `x ≥ 1` that is an integer.  The
number is first written as a string.  Below 10^21 the string is a decimal
numeral that reads back as `x`.  From 10^21 on it is in exponent notation, such
as `1e+21` or `1.5e+21`, and `parseInt` reads the digits before the `.` or the
`e`: the first digit. -/
def parseInt (x : Nat) : Nat :=
  if x < 10 ^ 21 then x
  else firstDigitLoop x (decimalDigits x) 21 1

/-- The rational number that a binary64 number is. -/
def Float64.toRat (x : Float64) : ℚ :=
  (x.num : ℚ) / (x.den : ℚ)

/-- The expression `totalPossiblePoints > 0 ?
Math.round((pointsAchieved / totalPossiblePoints) * 100) : 0` of `analytics.js`
(lines 56-58 and 112-114). -/
def disciplinePercentageOf (pointsAchieved totalPossiblePoints : Nat) : Nat :=
  if totalPossiblePoints > 0 then
    ((Float64.divide pointsAchieved totalPossiblePoints).times 100).round
  else 0

/-- The integer nearest to `n / d` with a tie going up: the `round(n / d)` of
the specification, read as `Math.round` of the exact quotient. -/
def roundHalfUp (n d : Nat) : Nat :=
  (2 * n + d) / (2 * d)

/-! ## Strings -/

/-- The code points that `String.prototype.trim` removes: ECMAScript
`WhiteSpace` and `LineTerminator`. -/
def isWhiteSpace (c : Char) : Bool :=
  let n := c.toNat
  n = 0x09 || n = 0x0A || n = 0x0B || n = 0x0C || n = 0x0D || n = 0x20 ||
  n = 0xA0 || n = 0x1680 || (0x2000 ≤ n && n ≤ 0x200A) || n = 0x2028 ||
  n = 0x2029 || n = 0x202F || n = 0x205F || n = 0x3000 || n = 0xFEFF

/-- JavaScript `s.trim()`. -/
def trim (s : String) : String :=
  ⟨((s.data.dropWhile isWhiteSpace).reverse.dropWhile isWhiteSpace).reverse⟩

/-! ## The goal ledger (`backend/routes/journal.js`) -/

/-- The helper `initializeDaysArray`: `new Array(daysInMonth).fill(false)`. -/
def initializeDaysArray (daysInMonth : Nat) : List Bool :=
  List.replicate daysInMonth false

/-- The loop `while (newDays.length < daysInMonth) newDays.push(false)`, with a
bound on the number of iterations. -/
def pushWhileShorter (daysInMonth : Nat) : Nat → List Bool → List Bool
  | 0, newDays => newDays
  | fuel + 1, newDays =>
    if newDays.length < daysInMonth then
      pushWhileShorter daysInMonth fuel (newDays ++ [false])
    else newDays

/-- The loop `while (newDays.length > daysInMonth) newDays.pop()`, with a bound
on the number of iterations. -/
def popWhileLonger (daysInMonth : Nat) : Nat → List Bool → List Bool
  | 0, newDays => newDays
  | fuel + 1, newDays =>
    if newDays.length > daysInMonth then
      popWhileLonger daysInMonth fuel newDays.dropLast
    else newDays

/-- The adjustment of a goal's `days` to the month, lines 41-51 and 193-202 of
`journal.js`.  Neither loop runs more often than the longer of the two lengths.
When `daysInMonth` is `NaN` every comparison of the loops is false and the
array is copied as it is. -/
def normalizeDays (days : List Bool) (daysInMonth : Option Nat) : List Bool :=
  match daysInMonth with
  | none => days
  | some n =>
    if days.length ≠ n then
      popWhileLonger n days.length (pushWhileShorter n n days)
    else days

/-- The handler of `GET /api/journal/:year/:month` (`getOrCreateJournal`). -/
def getOrCreateJournal (store : Store) (userId : Nat) (year month : Int) :
    Store × Response :=
  match findOne store userId year month with
  | none =>
    let journal : Journal := { userId := userId, year := year, month := month, goals := [] }
    if validMonth month then (save store journal, Response.ok journal)
    else (store, Response.serverError)
  | some journal =>
    let daysInMonth := getDaysInMonth month year
    let journal : Journal :=
      { journal with
        goals := journal.goals.map fun goal =>
          { goal with days := normalizeDays goal.days daysInMonth } }
    (save store journal, Response.ok journal)

/-- The expression `points && points > 0 ? parseInt(points) : 1` for a `points`
that is absent or an integer written in the request body.  `parseInt(Infinity)`
is `NaN`, which is `none`. -/
def goalPointsOf (points : Option Int) : Option Nat :=
  match points with
  | none => some 1
  | some p => if p > 0 then (toNumber p.toNat).map parseInt else some 1

/-- The handler of `POST /api/journal/:year/:month/goal` (`addGoal`).  `goalName`
and `points` are the fields of the request body, `none` when absent; `newId` is the `_id`
that the pushed subdocument receives.  `new Array(NaN)` throws, and so does the
save of a goal whose points are `NaN`, which is no value of the schema's type
`Number`. -/
def addGoal (store : Store) (userId : Nat) (year month : Int)
    (goalName : Option String) (points : Option Int) (newId : Nat) :
    Store × Response :=
  match goalName with
  | none => (store, Response.badRequest "Goal name is required")
  | some name =>
    if name = "" ∨ trim name = "" then
      (store, Response.badRequest "Goal name is required")
    else
      let found := findOne store userId year month
      let journal : Journal :=
        match found with
        | none => { userId := userId, year := year, month := month, goals := [] }
        | some journal => journal
      match getDaysInMonth month year with
      | none => (store, Response.serverError)
      | some daysInMonth =>
        match goalPointsOf points with
        | none => (store, Response.serverError)
        | some goalPoints =>
          let journal : Journal :=
            { journal with
              goals := journal.goals ++
                [{ id := newId, goalName := trim name, points := goalPoints,
                   days := initializeDaysArray daysInMonth }] }
          if found.isNone ∧ ¬ validMonth month then (store, Response.serverError)
          else (save store journal, Response.ok journal)

/-- The assignment `goal.points = parseInt(points)` of `updateGoal`, made when
`points` is supplied and above 0; `none` when `parseInt(points)` is `NaN`. -/
def setPointsOf (points : Option Int) : Option (Goal → Goal) :=
  match points with
  | none => some fun goal => goal
  | some p =>
    if p > 0 then
      (toNumber p.toNat).map fun x goal => { goal with points := parseInt x }
    else some fun goal => goal

/-- The handler of `PUT /api/journal/:year/:month/goal/:goalId` (`updateGoal`).
The save of a goal whose points are `NaN` throws. -/
def updateGoal (store : Store) (userId : Nat) (year month : Int) (goalId : Nat)
    (goalName : Option String) (points : Option Int) : Store × Response :=
  match findOne store userId year month with
  | none => (store, Response.notFound "Journal not found")
  | some journal =>
    match goalById journal.goals goalId with
    | none => (store, Response.notFound "Goal not found")
    | some _ =>
      let setName (goal : Goal) : Goal :=
        match goalName with
        | some name => if trim name ≠ "" then { goal with goalName := trim name } else goal
        | none => goal
      match setPointsOf points with
      | none => (store, Response.serverError)
      | some setPoints =>
        let journal : Journal :=
          { journal with
            goals := modifyGoal journal.goals goalId fun goal => setPoints (setName goal) }
        (save store journal, Response.ok journal)

/-- The handler of `DELETE /api/journal/:year/:month/goal/:goalId` (`removeGoal`).  When no
goal has the id, `journal.goals.id(goalId)` is `null` and `.remove()` throws. -/
def removeGoal (store : Store) (userId : Nat) (year month : Int) (goalId : Nat) :
    Store × Response :=
  match findOne store userId year month with
  | none => (store, Response.notFound "Journal not found")
  | some journal =>
    match goalById journal.goals goalId with
    | none => (store, Response.serverError)
    | some _ =>
      let journal : Journal :=
        { journal with goals := removeGoalById journal.goals goalId }
      (save store journal, Response.ok journal)

/-- The comparison `dayIndex >= daysInMonth`, false when `daysInMonth` is `NaN`. -/
def geDays (dayIndex : Int) (daysInMonth : Option Nat) : Bool :=
  match daysInMonth with
  | none => false
  | some n => decide (dayIndex ≥ n)

/-- The expression `!goal.days[dayIndex]`: an index past the end reads `undefined`, which
`!` turns into `true`. -/
def notAt (days : List Bool) (dayIndex : Nat) : Bool :=
  !(days.getD dayIndex false)

/-- The assignment `goal.days[dayIndex] = value`: an index past the end lengthens the array,
the skipped positions staying empty (kept here as `false`). -/
def setAt (days : List Bool) (dayIndex : Nat) (value : Bool) : List Bool :=
  if dayIndex < days.length then days.set dayIndex value
  else days ++ List.replicate (dayIndex - days.length) false ++ [value]

/-- The handler of `PUT /api/journal/:year/:month/goal/:goalId/day/:day`
(`toggleDay`), for an
integer `day`. -/
def toggleDay (store : Store) (userId : Nat) (year month : Int) (goalId : Nat)
    (day : Int) : Store × Response :=
  let dayIndex := day - 1
  match findOne store userId year month with
  | none => (store, Response.notFound "Journal not found")
  | some journal =>
    match goalById journal.goals goalId with
    | none => (store, Response.notFound "Goal not found")
    | some _ =>
      let daysInMonth := getDaysInMonth month year
      if dayIndex < 0 ∨ geDays dayIndex daysInMonth then
        (store, Response.badRequest "Invalid day")
      else
        let journal : Journal :=
          { journal with
            goals := modifyGoal journal.goals goalId fun goal =>
              let days := normalizeDays goal.days daysInMonth
              { goal with days := setAt days dayIndex.toNat (notAt days dayIndex.toNat) } }
        (save store journal, Response.ok journal)

/-! ## The analytics engine (`backend/routes/analytics.js`) -/

/-- The three counters of the statistics loop. -/
structure Totals where
  totalPossiblePoints : Nat
  pointsAchieved : Nat
  completedDays : Nat
  deriving DecidableEq, Repr

/-- The body of `goal.days.forEach((day, index) => ...)` of the single-month
statistics (lines 46-53), from index `index` on.  The sums are those of the
integers: JavaScript adds in binary64, which is exact while the sums stay below
2^53. -/
def forEachDay (goalPoints daysToCount : Nat) : Nat → List Bool → Totals → Totals
  | _, [], acc => acc
  | index, day :: rest, acc =>
    forEachDay goalPoints daysToCount (index + 1) rest
      (if index < daysToCount then
        if day then
          { acc with
            pointsAchieved := acc.pointsAchieved + goalPoints
            completedDays := acc.completedDays + 1 }
        else acc
      else acc)

/-- The body of `journal.goals.forEach(goal => ...)` of the single-month
statistics (lines 42-54); `goal.points || 1` is 1 for a `points` of 0.  The sum
and the product are those of the integers: JavaScript computes them in binary64,
which is exact while they stay below 2^53. -/
def forEachGoal (daysToCount : Nat) (acc : Totals) (goal : Goal) : Totals :=
  let goalPoints := if goal.points = 0 then 1 else goal.points
  forEachDay goalPoints daysToCount 0 goal.days
    { acc with totalPossiblePoints := acc.totalPossiblePoints + goalPoints * daysToCount }

/-- The answer of the single-month statistics. -/
structure MonthStats where
  totalPossiblePoints : Nat
  pointsAchieved : Nat
  disciplinePercentage : Nat
  completedDays : Nat
  totalDays : Nat
  totalGoals : Nat
  deriving DecidableEq, Repr

/-- The single-month statistics of `GET /api/analytics/journal/:year/:month`
for a journal that exists (lines 38-67), `daysToCount` being the effective day
count. -/
def computeMonthStats (journal : Journal) (daysToCount : Nat) : MonthStats :=
  let totals := journal.goals.foldl (forEachGoal daysToCount)
    { totalPossiblePoints := 0, pointsAchieved := 0, completedDays := 0 }
  { totalPossiblePoints := totals.totalPossiblePoints
    pointsAchieved := totals.pointsAchieved
    disciplinePercentage :=
      disciplinePercentageOf totals.pointsAchieved totals.totalPossiblePoints
    completedDays := totals.completedDays
    totalDays := daysToCount
    totalGoals := journal.goals.length }

/-- The number of indices `i < d` with `days[i]` true. -/
def completedWithin (days : List Bool) (d : Nat) : Nat :=
  ((List.range d).filter fun i => days[i]? = some true).length

/-- The calendar fields of `new Date()` in the server's time zone:
`getFullYear()`, `getMonth()` (0..11) and `getDate()`. -/
structure Today where
  year : Int
  month : Int
  date : Nat
  deriving DecidableEq, Repr

/-- The answer of `GET /api/analytics/journal/:year/:month`.  `none` in
`totalPossiblePoints` and `totalDays` is `NaN`; `totalGoals` is absent from the
answer for a month without journal. -/
structure StatsResponse where
  totalPossiblePoints : Option Nat
  pointsAchieved : Nat
  disciplinePercentage : Nat
  completedDays : Nat
  totalDays : Option Nat
  totalGoals : Option Nat
  deriving DecidableEq, Repr

/-- The handler of `GET /api/analytics/journal/:year/:month` (lines 15-72).  With a `NaN` day
count no index is below it, every product with it is `NaN` and `NaN > 0` is
false. -/
def journalAnalytics (store : Store) (userId : Nat) (year month : Int)
    (today : Today) : StatsResponse :=
  match findOne store userId year month with
  | none =>
    { totalPossiblePoints := some 0, pointsAchieved := 0, disciplinePercentage := 0,
      completedDays := 0, totalDays := getDaysInMonth month year, totalGoals := none }
  | some journal =>
    let daysInMonth := getDaysInMonth month year
    let isCurrentMonth := today.year = year ∧ today.month + 1 = month
    let daysToCount := if isCurrentMonth then some today.date else daysInMonth
    match daysToCount with
    | some d =>
      let stats := computeMonthStats journal d
      { totalPossiblePoints := some stats.totalPossiblePoints
        pointsAchieved := stats.pointsAchieved
        disciplinePercentage := stats.disciplinePercentage
        completedDays := stats.completedDays
        totalDays := some stats.totalDays
        totalGoals := some stats.totalGoals }
    | none =>
      { totalPossiblePoints := if journal.goals.isEmpty then some 0 else none
        pointsAchieved := 0, disciplinePercentage := 0, completedDays := 0
        totalDays := none, totalGoals := some journal.goals.length }

/-- The date `new Date(year, month, date)` as a day number, `none` for an invalid date. -/
def makeDate (year month date : Int) : Option Int :=
  timeClip (makeDay (makeFullYear year) month date)

/-- The body of `goal.days.forEach(day => ...)` of the history (lines 103-108):
every flag of the array counts. -/
def forEachDayOfHistory (goalPoints : Nat) : List Bool → Totals → Totals
  | [], acc => acc
  | day :: rest, acc =>
    forEachDayOfHistory goalPoints rest
      (if day then
        { acc with
          pointsAchieved := acc.pointsAchieved + goalPoints
          completedDays := acc.completedDays + 1 }
      else acc)

/-- The body of `journal.goals.forEach(goal => ...)` of the history (lines
99-109), for a day count that is a number.  The sum and the product are those of
the integers, as in `forEachGoal`. -/
def forEachGoalOfHistory (daysInMonth : Nat) (acc : Totals) (goal : Goal) : Totals :=
  let goalPoints := if goal.points = 0 then 1 else goal.points
  forEachDayOfHistory goalPoints goal.days
    { acc with totalPossiblePoints := acc.totalPossiblePoints + goalPoints * daysInMonth }

/-- One element of `results` of the history, without `monthName` (a localised
string).  `none` in `totalPossiblePoints` and `totalDays` is `NaN`. -/
structure HistoryEntry where
  year : Int
  month : Int
  totalPossiblePoints : Option Nat
  pointsAchieved : Nat
  disciplinePercentage : Nat
  completedDays : Nat
  totalDays : Option Nat
  totalGoals : Nat
  deriving DecidableEq, Repr

/-- The statistics of one month of the history (lines 91-126). -/
def historyEntry (store : Store) (userId : Nat) (year month : Int) : HistoryEntry :=
  let goals : List Goal :=
    match findOne store userId year month with
    | some journal => journal.goals
    | none => []
  match getDaysInMonth month year with
  | some daysInMonth =>
    let totals := goals.foldl (forEachGoalOfHistory daysInMonth)
      { totalPossiblePoints := 0, pointsAchieved := 0, completedDays := 0 }
    { year := year, month := month
      totalPossiblePoints := some totals.totalPossiblePoints
      pointsAchieved := totals.pointsAchieved
      disciplinePercentage :=
        disciplinePercentageOf totals.pointsAchieved totals.totalPossiblePoints
      completedDays := totals.completedDays
      totalDays := some daysInMonth
      totalGoals := goals.length }
  | none =>
    let totals := goals.foldl (forEachGoalOfHistory 0)
      { totalPossiblePoints := 0, pointsAchieved := 0, completedDays := 0 }
    { year := year, month := month
      totalPossiblePoints := if goals.isEmpty then some 0 else none
      pointsAchieved := totals.pointsAchieved
      disciplinePercentage := 0
      completedDays := totals.completedDays
      totalDays := none
      totalGoals := goals.length }

/-- One iteration of the loop of the history (lines 86-126): the month `i`
months before the current one and its statistics.  A date out of range has
`NaN` for year and month, on which the query of `Journal.findOne` throws. -/
def historyStep (store : Store) (userId : Nat) (today : Today) (i : Nat) :
    Option HistoryEntry :=
  match makeDate today.year (today.month - i) 1 with
  | none => none
  | some date => some (historyEntry store userId (yearFromDay date) (monthFromDay date + 1))

/-- The loop `for (let i = 0; i < parseInt(months); i++)` of the history (lines
85-127), `count` iterations from `i` on, each pushing its entry to `results`. -/
def historyLoop (store : Store) (userId : Nat) (today : Today) :
    Nat → Nat → List HistoryEntry → Option (List HistoryEntry)
  | 0, _, results => some results
  | count + 1, i, results =>
    match historyStep store userId today i with
    | none => none
    | some entry => historyLoop store userId today count (i + 1) (results ++ [entry])

/-- The reducer of `bestMonth` (lines 130-133):
`current.disciplinePercentage > (best?.disciplinePercentage || 0) ? current : best`. -/
def betterMonth (best : Option HistoryEntry) (current : HistoryEntry) :
    Option HistoryEntry :=
  let bestValue := match best with
    | some b => b.disciplinePercentage
    | none => 0
  if current.disciplinePercentage > bestValue then some current else best

/-- The reducer of `mostConsistentMonth` (lines 136-139):
`current.completedDays > (best?.completedDays || 0) ? current : best`. -/
def moreConsistentMonth (best : Option HistoryEntry) (current : HistoryEntry) :
    Option HistoryEntry :=
  let bestValue := match best with
    | some b => b.completedDays
    | none => 0
  if current.completedDays > bestValue then some current else best

/-- The answer of `GET /api/analytics/history`; `none` for the two months is
`null`. -/
inductive HistoryResponse where
  | ok (history : List HistoryEntry) (bestMonth mostConsistentMonth : Option HistoryEntry)
  | serverError
  deriving DecidableEq, Repr

/-- The handler of `GET /api/analytics/history` (`computeHistory`), `months` being
`parseInt(months)`. -/
def computeHistory (store : Store) (userId : Nat) (today : Today) (months : Int) :
    HistoryResponse :=
  match historyLoop store userId today months.toNat 0 [] with
  | none => HistoryResponse.serverError
  | some results =>
    HistoryResponse.ok results.reverse
      (results.foldl betterMonth none)
      (results.foldl moreConsistentMonth none)

/-! ## Example documents -/

/-- A goal of February 2024 with no day completed. -/
def readGoal : Goal :=
  { id := 100, goalName := "Read", points := 2, days := List.replicate 29 false }

/-- The journal of user 7 for February 2024 holding `readGoal`. -/
def februaryJournal : Journal :=
  { userId := 7, year := 2024, month := 2, goals := [readGoal] }

/-- A goal whose day record holds a single flag. -/
def staleGoal : Goal :=
  { id := 101, goalName := "Run", points := 1, days := [true] }

/-- The journal of user 7 for February 2024 holding `staleGoal`. -/
def staleJournal : Journal :=
  { userId := 7, year := 2024, month := 2, goals := [staleGoal] }

/-- A goal with 29 completed flags. -/
def overlongGoal : Goal :=
  { id := 102, goalName := "Walk", points := 1, days := List.replicate 29 true }

/-- The journal of user 7 for February 2023, a month of 28 days, holding
`overlongGoal`. -/
def overlongJournal : Journal :=
  { userId := 7, year := 2023, month := 2, goals := [overlongGoal] }

/-- A goal of February 2024 completed on the first three days. -/
def startedGoal : Goal :=
  { id := 100, goalName := "Read", points := 2
    days := [true, true, true] ++ List.replicate 26 false }

/-- The journal of user 7 for February 2024 holding `startedGoal`. -/
def startedJournal : Journal :=
  { userId := 7, year := 2024, month := 2, goals := [startedGoal] }

/-- A journal of April 2024 with two goals of one point: over 20 days the first
is completed every day and the second on three days. -/
def halfwayJournal : Journal :=
  { userId := 7, year := 2024, month := 4
    goals :=
      [{ id := 1, goalName := "Read", points := 1, days := List.replicate 30 true },
       { id := 2, goalName := "Run", points := 1
         days := [true, true, true] ++ List.replicate 27 false }] }

/-- The journal of user 7 for January 2024: one goal of one point, completed on
the first three days. -/
def januaryJournal : Journal :=
  { userId := 7, year := 2024, month := 1
    goals := [{ id := 103, goalName := "Run", points := 1
                days := [true, true, true] ++ List.replicate 28 false }] }

/-- The entry of the history for `januaryJournal`. -/
def januaryEntry : HistoryEntry :=
  { year := 2024, month := 1, totalPossiblePoints := some 31, pointsAchieved := 3
    disciplinePercentage := 10, completedDays := 3, totalDays := some 31, totalGoals := 1 }

/-- The entry of the history for `startedJournal`. -/
def februaryEntry : HistoryEntry :=
  { year := 2024, month := 2, totalPossiblePoints := some 58, pointsAchieved := 6
    disciplinePercentage := 10, completedDays := 3, totalDays := some 29, totalGoals := 1 }

/-- The entry of the history for March 2024 without journal. -/
def marchEntry : HistoryEntry :=
  { year := 2024, month := 3, totalPossiblePoints := some 0, pointsAchieved := 0
    disciplinePercentage := 0, completedDays := 0, totalDays := some 31, totalGoals := 0 }

/-! ## Properties of the `Date` arithmetic -/

theorem dayFromYear_succ (y : Int) : dayFromYear (y + 1) = dayFromYear y + daysInYear y := by
  unfold dayFromYear daysInYear
  split_ifs <;> omega

theorem daysInYear_pos (y : Int) : 365 ≤ daysInYear y := by
  unfold daysInYear
  split_ifs <;> omega

theorem dayFromYear_mono {y z : Int} (h : y ≤ z) : dayFromYear y ≤ dayFromYear z := by
  obtain ⟨k, rfl⟩ := Int.le.dest h
  induction k with
  | zero => simp
  | succ k ih =>
    have h1 := dayFromYear_succ (y + k)
    have h2 := daysInYear_pos (y + k)
    have h3 := ih (by omega)
    have : y + ((k + 1 : Nat) : Int) = y + k + 1 := by push_cast; ring
    rw [this]; omega

/-- The year found by `yearFromDay` is the one ECMAScript defines: the largest
year that starts on or before the day. -/
theorem yearFromDay_spec (day : Int) :
    dayFromYear (yearFromDay day) ≤ day ∧ day < dayFromYear (yearFromDay day + 1) := by
  unfold yearFromDay
  simp only
  have e1 : 1970 + 400 * day / 146097 - 1 + 2 + 1 = 1970 + 400 * day / 146097 + 2 := by ring
  have e2 : 1970 + 400 * day / 146097 - 1 + 1 + 1 = 1970 + 400 * day / 146097 - 1 + 2 := by ring
  split_ifs with h1 h2
  · refine ⟨h1, ?_⟩
    rw [e1]
    unfold dayFromYear at *
    omega
  · refine ⟨h2, ?_⟩
    rw [e2]; omega
  · constructor
    · unfold dayFromYear at *
      omega
    · omega

theorem yearFromDay_eq (y day : Int) (h0 : dayFromYear y ≤ day)
    (h1 : day < dayFromYear (y + 1)) : yearFromDay day = y := by
  have h := yearFromDay_spec day
  generalize yearFromDay day = z at h
  rcases lt_trichotomy z y with hlt | heq | hgt
  · have := dayFromYear_mono (show z + 1 ≤ y by omega)
    omega
  · exact heq
  · have := dayFromYear_mono (show y + 1 ≤ z by omega)
    omega

theorem dayWithinYear_offset (y o : Int) (h0 : 0 ≤ o) (h1 : o < daysInYear y) :
    yearFromDay (dayFromYear y + o) = y ∧ dayWithinYear (dayFromYear y + o) = o := by
  have hy : yearFromDay (dayFromYear y + o) = y := by
    apply yearFromDay_eq
    · omega
    · rw [dayFromYear_succ]; omega
  refine ⟨hy, ?_⟩
  unfold dayWithinYear
  rw [hy]; omega

theorem daysInYear_cases (y : Int) :
    (daysInYear y = 365 ∧ inLeapYear y = 0 ∧ ¬ (y % 4 = 0 ∧ (y % 100 ≠ 0 ∨ y % 400 = 0))) ∨
    (daysInYear y = 366 ∧ inLeapYear y = 1 ∧ (y % 4 = 0 ∧ (y % 100 ≠ 0 ∨ y % 400 = 0))) := by
  unfold inLeapYear daysInYear
  split_ifs <;> simp_all

theorem makeDay_monthEnd (y month : Int) (h1 : 1 ≤ month) (h12 : month ≤ 12) :
    makeDay y month 0 = dayFromYear y +
      ((if month = 12 then daysInYear y else monthStart month (inLeapYear y)) - 1) := by
  have hs := dayFromYear_succ y
  interval_cases month <;> simp [makeDay, monthStart, hs] <;> omega

/-- Day 0 of month index `month` is the last day of calendar month `month` of
the same year, and its date is the Gregorian length of that month. -/
theorem dateFromDay_monthEnd (y month : Int) (h1 : 1 ≤ month) (h12 : month ≤ 12) :
    dateFromDay (makeDay y month 0) = gregorianMonthLength month y ∧
    makeDay y month 0 < dayFromYear (y + 1) ∧ dayFromYear y ≤ makeDay y month 0 := by
  have he := makeDay_monthEnd y month h1 h12
  have hs := dayFromYear_succ y
  have hc := daysInYear_cases y
  have hb : 0 ≤ (if month = 12 then daysInYear y else monthStart month (inLeapYear y)) - 1 ∧
      (if month = 12 then daysInYear y else monthStart month (inLeapYear y)) - 1
        < daysInYear y := by
    interval_cases month <;> rcases hc with ⟨hd, hl, hg⟩ | ⟨hd, hl, hg⟩ <;>
      simp [monthStart, hl, hd]
  obtain ⟨hy, hw⟩ := dayWithinYear_offset y _ hb.1 hb.2
  refine ⟨?_, by omega, by omega⟩
  rw [he]
  unfold dateFromDay monthFromDay
  rw [hy, hw]
  interval_cases month <;> rcases hc with ⟨hd, hl, hg⟩ | ⟨hd, hl, hg⟩ <;>
    simp [monthStart, hl, hd, gregorianMonthLength] <;> omega

theorem gregorianMonthLength_pos (month year : Int) : 28 ≤ gregorianMonthLength month year := by
  unfold gregorianMonthLength
  split_ifs <;> omega

theorem gregorianMonthLength_le (month year : Int) : gregorianMonthLength month year ≤ 31 := by
  unfold gregorianMonthLength
  split_ifs <;> omega

/-- The day count of a calendar month whose last day is a valid `Date`: the
Gregorian length of the month in the year that the constructor reads. -/
theorem getDaysInMonth_eq (month year : Int) (h1 : 1 ≤ month) (h12 : month ≤ 12)
    (hlo : -271820 ≤ year) (hhi : year ≤ 275759) :
    getDaysInMonth month year = some (gregorianMonthLength month (makeFullYear year)) := by
  obtain ⟨hd, hlt, hge⟩ := dateFromDay_monthEnd (makeFullYear year) month h1 h12
  have hy : -271820 ≤ makeFullYear year ∧ makeFullYear year ≤ 275759 := by
    unfold makeFullYear; split_ifs <;> omega
  have hclip : timeClip (makeDay (makeFullYear year) month 0) =
      some (makeDay (makeFullYear year) month 0) := by
    unfold timeClip
    rw [if_pos]
    generalize makeDay (makeFullYear year) month 0 = day at *
    generalize makeFullYear year = y at *
    unfold dayFromYear at hlt hge
    omega
  unfold getDaysInMonth
  rw [hclip]
  simp [hd]

/-! ## Properties of the day-record normalisation -/

theorem pushWhileShorter_eq (n : Nat) :
    ∀ (fuel : Nat) (l : List Bool), n ≤ l.length + fuel →
      pushWhileShorter n fuel l = l ++ List.replicate (n - l.length) false := by
  intro fuel
  induction fuel with
  | zero =>
    intro l h
    have : n - l.length = 0 := by omega
    simp [pushWhileShorter, this]
  | succ fuel ih =>
    intro l h
    unfold pushWhileShorter
    split_ifs with hlt
    · rw [ih (l ++ [false]) (by simp; omega)]
      have : n - l.length = (n - (l ++ [false]).length) + 1 := by simp; omega
      rw [this, List.replicate_succ]
      simp
    · have : n - l.length = 0 := by omega
      simp [this]

theorem popWhileLonger_eq (n : Nat) :
    ∀ (fuel : Nat) (l : List Bool), l.length ≤ n + fuel →
      popWhileLonger n fuel l = l.take n := by
  intro fuel
  induction fuel with
  | zero =>
    intro l h
    simp only [popWhileLonger]
    exact (List.take_of_length_le (by omega)).symm
  | succ fuel ih =>
    intro l h
    unfold popWhileLonger
    split_ifs with hgt
    · rw [ih l.dropLast (by simp; omega), List.dropLast_eq_take, List.take_take]
      congr 1
      omega
    · exact (List.take_of_length_le (by omega)).symm

/-- The adjustment pads with `false` at the end or drops from the end. -/
theorem normalizeDays_some (days : List Bool) (n : Nat) :
    normalizeDays days (some n) =
      days.take n ++ List.replicate (n - days.length) false := by
  unfold normalizeDays
  simp only
  split_ifs with h
  · rw [pushWhileShorter_eq n n days (by omega), popWhileLonger_eq n _ _ (by simp; omega)]
    rw [List.take_append_eq_append_take]
    congr 1
    rw [List.take_replicate]
    congr 1
    omega
  · have h' : days.length = n := by omega
    simp [← h']

theorem normalizeDays_length (days : List Bool) (n : Nat) :
    (normalizeDays days (some n)).length = n := by
  rw [normalizeDays_some]
  simp
  omega

theorem normalizeDays_getElem?_lt (days : List Bool) (n k : Nat) (hk : k < n)
    (hk' : k < days.length) : (normalizeDays days (some n))[k]? = days[k]? := by
  rw [normalizeDays_some, List.getElem?_append_left (by simp; omega)]
  rw [List.getElem?_take]
  simp [hk]

theorem normalizeDays_getElem?_ge (days : List Bool) (n k : Nat) (hk : k < n)
    (hk' : days.length ≤ k) : (normalizeDays days (some n))[k]? = some false := by
  rw [normalizeDays_some, List.getElem?_append_right (by simp; omega)]
  rw [List.getElem?_replicate]
  simp
  omega

theorem normalizeDays_of_length (days : List Bool) (n : Nat) (h : days.length = n) :
    normalizeDays days (some n) = days := by
  unfold normalizeDays
  simp [h]

/-! ## Properties of the store -/

theorem findOne_key {store : Store} {userId : Nat} {year month : Int} {journal : Journal}
    (h : findOne store userId year month = some journal) :
    journal.userId = userId ∧ journal.year = year ∧ journal.month = month := by
  have := List.find?_some h
  simpa [matchesKey] using this

theorem findOne_save (store : Store) (journal : Journal) :
    findOne (save store journal) journal.userId journal.year journal.month = some journal := by
  induction store with
  | nil => simp [save, findOne, matchesKey]
  | cons j rest ih =>
    unfold save
    split_ifs with h
    · simp [findOne, matchesKey]
    · unfold findOne at ih ⊢
      rw [List.find?_cons, ih]
      simp [h]

theorem save_of_findOne {store : Store} {userId : Nat} {year month : Int} {journal : Journal}
    (h : findOne store userId year month = some journal) : save store journal = store := by
  obtain ⟨hu, hy, hm⟩ := findOne_key h
  subst hu hy hm
  induction store with
  | nil => simp [findOne] at h
  | cons j rest ih =>
    unfold findOne at h ih
    rw [List.find?_cons] at h
    unfold save
    split at h
    · next hj =>
      have : j = journal := by simpa using h
      subst this
      simp [hj]
    · next hj =>
      simp only [hj, Bool.false_eq_true, ↓reduceIte, List.cons.injEq, true_and]
      exact ih h

theorem save_save (store : Store) (j1 j2 : Journal) (hu : j1.userId = j2.userId)
    (hy : j1.year = j2.year) (hm : j1.month = j2.month) :
    save (save store j1) j2 = save store j2 := by
  induction store with
  | nil => simp [save, matchesKey, hu, hy, hm]
  | cons j rest ih =>
    by_cases h : matchesKey j2.userId j2.year j2.month j = true
    · have h1 : matchesKey j1.userId j1.year j1.month j = true := by rw [hu, hy, hm]; exact h
      have h2 : matchesKey j2.userId j2.year j2.month j1 = true := by
        simp [matchesKey, hu, hy, hm]
      simp [save, h, h1, h2]
    · have h1 : ¬ matchesKey j1.userId j1.year j1.month j = true := by rw [hu, hy, hm]; exact h
      simp [save, h, h1, ih]

theorem goalById_append (pre post : List Goal) (g : Goal) (h : ∀ x ∈ pre, x.id ≠ g.id) :
    goalById (pre ++ g :: post) g.id = some g := by
  induction pre with
  | nil => simp [goalById]
  | cons x pre ih =>
    have hx : x.id ≠ g.id := h x (by simp)
    have := ih (fun y hy => h y (by simp [hy]))
    unfold goalById at this ⊢
    simp [List.find?_cons, hx, this]

theorem modifyGoal_append (pre post : List Goal) (g : Goal) (f : Goal → Goal)
    (h : ∀ x ∈ pre, x.id ≠ g.id) :
    modifyGoal (pre ++ g :: post) g.id f = pre ++ f g :: post := by
  induction pre with
  | nil => simp [modifyGoal]
  | cons x pre ih =>
    have hx : x.id ≠ g.id := h x (by simp)
    simp [modifyGoal, hx, ih (fun y hy => h y (by simp [hy]))]

theorem removeGoalById_append (pre post : List Goal) (g : Goal)
    (h : ∀ x ∈ pre, x.id ≠ g.id) :
    removeGoalById (pre ++ g :: post) g.id = pre ++ post := by
  induction pre with
  | nil => simp [removeGoalById]
  | cons x pre ih =>
    have hx : x.id ≠ g.id := h x (by simp)
    simp [removeGoalById, hx, ih (fun y hy => h y (by simp [hy]))]

theorem goalById_none_modifyGoal (goals : List Goal) (goalId : Nat) (f : Goal → Goal)
    (P : Goal → Prop) (hf : ∀ g, P g → P (f g)) (h : ∀ g ∈ goals, P g) :
    ∀ g ∈ modifyGoal goals goalId f, P g := by
  induction goals with
  | nil => simp [modifyGoal]
  | cons x rest ih =>
    unfold modifyGoal
    split_ifs with hx
    · intro g hg
      rcases List.mem_cons.1 hg with rfl | hg
      · exact hf x (h x (by simp))
      · exact h g (by simp [hg])
    · intro g hg
      rcases List.mem_cons.1 hg with rfl | hg
      · exact h g (by simp)
      · exact ih (fun y hy => h y (by simp [hy])) g hg

theorem mem_removeGoalById (goals : List Goal) (goalId : Nat) :
    ∀ g ∈ removeGoalById goals goalId, g ∈ goals := by
  induction goals with
  | nil => simp [removeGoalById]
  | cons x rest ih =>
    unfold removeGoalById
    split_ifs with hx
    · intro g hg; simp [hg]
    · intro g hg
      rcases List.mem_cons.1 hg with rfl | hg
      · simp
      · simp [ih g hg]

theorem trim_empty : trim "" = "" := by decide

/-! ## The goal ledger: `toggleDay` -/

theorem toggleDay_of_goal (store : Store) (userId : Nat) (year month : Int)
    (journal : Journal) (pre post : List Goal) (g : Goal) (d : Nat) (day : Int)
    (hfind : findOne store userId year month = some journal)
    (hgoals : journal.goals = pre ++ g :: post) (hpre : ∀ x ∈ pre, x.id ≠ g.id)
    (hd : getDaysInMonth month year = some d) (h1 : 1 ≤ day) (h2 : day ≤ d) :
    toggleDay store userId year month g.id day =
      (save store { journal with
          goals := pre ++ { g with
            days := (normalizeDays g.days (some d)).set (day - 1).toNat
              (!((normalizeDays g.days (some d)).getD (day - 1).toNat false)) } :: post },
       Response.ok { journal with
          goals := pre ++ { g with
            days := (normalizeDays g.days (some d)).set (day - 1).toNat
              (!((normalizeDays g.days (some d)).getD (day - 1).toNat false)) } :: post }) := by
  have hlt : (day - 1).toNat < (normalizeDays g.days (some d)).length := by
    rw [normalizeDays_length]; omega
  have hcond : ¬ (day - 1 < 0 ∨ geDays (day - 1) (some d) = true) := by
    simp [geDays]; omega
  unfold toggleDay
  simp only [hfind, hgoals, goalById_append pre post g hpre, hd, hcond, ↓reduceIte,
    modifyGoal_append pre post g _ hpre, setAt, notAt, hlt]

/-! ## Properties of the statistics loop -/

theorem forEachDay_eq (goalPoints d : Nat) :
    ∀ (days : List Bool) (index : Nat) (acc : Totals),
      forEachDay goalPoints d index days acc =
        { totalPossiblePoints := acc.totalPossiblePoints
          pointsAchieved :=
            acc.pointsAchieved + goalPoints * (days.take (d - index)).count true
          completedDays := acc.completedDays + (days.take (d - index)).count true } := by
  intro days
  induction days with
  | nil => intro index acc; simp [forEachDay]
  | cons day rest ih =>
    intro index acc
    rw [forEachDay, ih]
    by_cases hlt : index < d
    · have hd : d - index = (d - (index + 1)) + 1 := by omega
      rw [hd, List.take_succ_cons]
      cases day
      · simp [hlt]
      · simp [hlt, Nat.mul_add, Nat.add_assoc, Nat.add_comm 1]
        omega
    · have h0 : d - index = 0 := by omega
      have h1 : d - (index + 1) = 0 := by omega
      simp [hlt, h0, h1]

theorem completedWithin_cons (day : Bool) (rest : List Bool) (d : Nat) :
    completedWithin (day :: rest) (d + 1) =
      (if day then 1 else 0) + completedWithin rest d := by
  unfold completedWithin
  rw [List.range_succ_eq_map, List.filter_cons, List.filter_map]
  have : ((fun i => decide ((day :: rest)[i]? = some true)) ∘ Nat.succ) =
      fun i => decide (rest[i]? = some true) := by
    funext i
    simp
  rw [this]
  cases day
  · simp
  · simp
    omega

/-- The number of indices `i < d` with `days[i]` true is the number of `true`
among the first `d` flags. -/
theorem completedWithin_eq (days : List Bool) :
    ∀ d : Nat, completedWithin days d = (days.take d).count true := by
  induction days with
  | nil =>
    intro d
    simp [completedWithin]
  | cons day rest ih =>
    intro d
    cases d with
    | zero => simp [completedWithin]
    | succ d =>
      rw [completedWithin_cons, ih, List.take_succ_cons, List.count_cons]
      cases day <;> simp
      omega

theorem completedWithin_le (days : List Bool) (d : Nat) : completedWithin days d ≤ d := by
  unfold completedWithin
  calc ((List.range d).filter fun i => days[i]? = some true).length
      ≤ (List.range d).length := List.length_filter_le _ _
    _ = d := List.length_range d

theorem forEachGoal_eq (d : Nat) (acc : Totals) (goal : Goal) :
    forEachGoal d acc goal =
      { totalPossiblePoints :=
          acc.totalPossiblePoints + (if goal.points = 0 then 1 else goal.points) * d
        pointsAchieved :=
          acc.pointsAchieved +
            (if goal.points = 0 then 1 else goal.points) * completedWithin goal.days d
        completedDays := acc.completedDays + completedWithin goal.days d } := by
  unfold forEachGoal
  rw [forEachDay_eq, completedWithin_eq]
  simp

theorem foldl_forEachGoal (d : Nat) :
    ∀ (goals : List Goal) (acc : Totals),
      goals.foldl (forEachGoal d) acc =
        { totalPossiblePoints := acc.totalPossiblePoints +
            (goals.map fun g => (if g.points = 0 then 1 else g.points) * d).sum
          pointsAchieved := acc.pointsAchieved +
            (goals.map fun g =>
              (if g.points = 0 then 1 else g.points) * completedWithin g.days d).sum
          completedDays := acc.completedDays +
            (goals.map fun g => completedWithin g.days d).sum } := by
  intro goals
  induction goals with
  | nil => intro acc; simp
  | cons g rest ih =>
    intro acc
    rw [List.foldl_cons, ih, forEachGoal_eq]
    simp [Nat.add_assoc]

theorem sum_achieved_le (d : Nat) (goals : List Goal) :
    (goals.map fun g =>
      (if g.points = 0 then 1 else g.points) * completedWithin g.days d).sum ≤
    (goals.map fun g => (if g.points = 0 then 1 else g.points) * d).sum := by
  induction goals with
  | nil => simp
  | cons g rest ih =>
    simp only [List.map_cons, List.sum_cons]
    have := Nat.mul_le_mul_left (if g.points = 0 then 1 else g.points)
      (completedWithin_le g.days d)
    omega

theorem map_points_congr (goals : List Goal) (h : ∀ g ∈ goals, 1 ≤ g.points)
    (f : Goal → Nat) :
    (goals.map fun g => (if g.points = 0 then 1 else g.points) * f g) =
      goals.map fun g => g.points * f g := by
  apply List.map_congr_left
  intro g hg
  have := h g hg
  rw [if_neg (by omega)]

/-! ## Properties of the conversions of integers -/

theorem roundHalfEven_ge (n d : Nat) : n / d ≤ roundHalfEven n d := by
  unfold roundHalfEven
  simp only
  split_ifs <;> omega

theorem log2Loop_spec :
    ∀ (fuel n : Nat), 1 ≤ n → n ≤ fuel →
      2 ^ log2Loop fuel n ≤ n ∧ n < 2 ^ (log2Loop fuel n + 1) := by
  intro fuel
  induction fuel with
  | zero => intro n h1 h2; omega
  | succ fuel ih =>
    intro n h1 h2
    unfold log2Loop
    split_ifs with h
    · obtain ⟨ha, hb⟩ := ih (n / 2) (by omega) (by omega)
      rw [pow_succ] at hb ⊢
      rw [pow_succ]
      constructor <;> omega
    · simp
      omega

theorem log2Floor_spec (n : Nat) (h : 1 ≤ n) :
    2 ^ log2Floor n ≤ n ∧ n < 2 ^ (log2Floor n + 1) :=
  log2Loop_spec n n h (le_refl n)

/-- An integer up to 2^53 is a binary64 number. -/
theorem toNumber_of_le (n : Nat) (h : n ≤ 2 ^ 53) : toNumber n = some n := by
  rcases Nat.lt_or_eq_of_le h with hlt | heq
  · unfold toNumber
    rw [if_pos hlt]
  · subst heq
    unfold toNumber
    rw [if_neg (by omega), if_neg (by omega)]
    simp only
    have h53 : log2Floor (2 ^ 53) = 53 := by decide
    rw [h53]
    have hr : roundHalfEven (2 ^ 53) (2 ^ (53 - 52)) = 2 ^ 52 := by decide
    rw [hr]
    norm_num

/-- From `2^1024 - 2^970` on an integer becomes `Infinity`. -/
theorem toNumber_infinity (n : Nat) (h : 2 ^ 1024 - 2 ^ 970 ≤ n) : toNumber n = none := by
  unfold toNumber
  rw [if_neg (by omega), if_pos h]

/-- Below `2^1024 - 2^970` an integer becomes a finite number. -/
theorem toNumber_finite (n : Nat) (h : n < 2 ^ 1024 - 2 ^ 970) : ∃ x, toNumber n = some x := by
  unfold toNumber
  split_ifs with h1 h2
  · exact ⟨_, rfl⟩
  · omega
  · exact ⟨_, rfl⟩

theorem toNumber_pos (n x : Nat) (h : 1 ≤ n) (hx : toNumber n = some x) : 1 ≤ x := by
  unfold toNumber at hx
  split_ifs at hx with hlt hinf
  · rw [← Option.some.inj hx]
    exact h
  · simp only at hx
    rw [← Option.some.inj hx]
    obtain ⟨hlo, _⟩ := log2Floor_spec n h
    have hpow : 2 ^ (log2Floor n - 52) ≤ 2 ^ log2Floor n :=
      Nat.pow_le_pow_right (by decide) (Nat.sub_le _ _)
    have hpos : 0 < 2 ^ (log2Floor n - 52) := by positivity
    have hq : 1 ≤ n / 2 ^ (log2Floor n - 52) :=
      (Nat.one_le_div_iff hpos).2 (le_trans hpow hlo)
    have hr := roundHalfEven_ge n (2 ^ (log2Floor n - 52))
    exact Nat.mul_pos (by omega) hpos

theorem digitsLoop_pos : ∀ (fuel n : Nat), 1 ≤ digitsLoop fuel n := by
  intro fuel
  induction fuel with
  | zero => intro n; simp [digitsLoop]
  | succ fuel ih =>
    intro n
    unfold digitsLoop
    split_ifs <;> omega

theorem digitsLoop_spec :
    ∀ (fuel n : Nat), 1 ≤ n → n ≤ fuel → 10 ^ (digitsLoop fuel n - 1) ≤ n := by
  intro fuel
  induction fuel with
  | zero => intro n h1 h2; omega
  | succ fuel ih =>
    intro n h1 h2
    unfold digitsLoop
    split_ifs with h
    · have hprev := ih (n / 10) (by omega) (by omega)
      have hpos := digitsLoop_pos fuel (n / 10)
      have e : digitsLoop fuel (n / 10) + 1 - 1 = (digitsLoop fuel (n / 10) - 1) + 1 := by omega
      rw [e, pow_succ]
      omega
    · simpa using h1

theorem firstDigitWith_pos (x k n digit : Nat) (h : firstDigitWith x k n = some digit) :
    1 ≤ digit := by
  have hpos : 0 < 10 ^ (k - 1) := by positivity
  unfold firstDigitWith at h
  simp only at h
  split_ifs at h with h1 h2
  · rw [← Option.some.inj h]
    exact (Nat.one_le_div_iff hpos).2 h1.1
  · rw [← Option.some.inj h]
    exact (Nat.one_le_div_iff hpos).2 h2.1

theorem firstDigitLoop_pos (x digits : Nat) (h : 10 ^ (digits - 1) ≤ x) :
    ∀ (fuel k : Nat), 1 ≤ firstDigitLoop x digits fuel k := by
  intro fuel
  induction fuel with
  | zero =>
    intro k
    unfold firstDigitLoop
    exact (Nat.one_le_div_iff (by positivity)).2 h
  | succ fuel ih =>
    intro k
    unfold firstDigitLoop
    cases h1 : firstDigitWith x k digits with
    | some digit => exact firstDigitWith_pos x k digits digit h1
    | none =>
      cases h2 : firstDigitWith x k (digits + 1) with
      | some digit => exact firstDigitWith_pos x k (digits + 1) digit h2
      | none => exact ih (k + 1)

/-- What `parseInt` reads from a number of at least 1 is at least 1. -/
theorem parseInt_pos (x : Nat) (h : 1 ≤ x) : 1 ≤ parseInt x := by
  unfold parseInt
  split_ifs
  · exact h
  · exact firstDigitLoop_pos x _ (digitsLoop_spec x x h (le_refl x)) 21 1

/-- Below 10^21, `parseInt` of a binary64 integer is the integer. -/
theorem parseInt_of_lt (n : Nat) (h : n < 10 ^ 21) : parseInt n = n := by
  unfold parseInt
  rw [if_pos h]

theorem goalPointsOf_pos (points : Option Int) (gp : Nat)
    (h : goalPointsOf points = some gp) : 1 ≤ gp := by
  unfold goalPointsOf at h
  cases points with
  | none =>
    rw [← Option.some.inj h]
  | some p =>
    simp only at h
    split_ifs at h with hpos
    · cases hx : toNumber p.toNat with
      | none => simp [hx] at h
      | some x =>
        simp only [hx, Option.map_some', Option.some.injEq] at h
        rw [← h]
        exact parseInt_pos x (toNumber_pos p.toNat x (by omega) hx)
    · rw [← Option.some.inj h]

/-- The points of a new goal are a number when the supplied points are absent or
below `2^1024 - 2^970`. -/
theorem goalPointsOf_finite (points : Option Int)
    (h : ∀ p : Int, points = some p → p < 2 ^ 1024 - 2 ^ 970) :
    ∃ gp, goalPointsOf points = some gp := by
  unfold goalPointsOf
  cases points with
  | none => exact ⟨1, rfl⟩
  | some p =>
    simp only
    split_ifs with hpos
    · have hlt := h p rfl
      obtain ⟨x, hx⟩ := toNumber_finite p.toNat (by omega)
      exact ⟨parseInt x, by rw [hx]; rfl⟩
    · exact ⟨1, rfl⟩

theorem goalPointsOf_of_number (p : Int) (hpos : 0 < p) (hlt : p < 10 ^ 21)
    (hnum : toNumber p.toNat = some p.toNat) (gp : Nat)
    (h : goalPointsOf (some p) = some gp) : (gp : Int) = p := by
  unfold goalPointsOf at h
  simp only [gt_iff_lt, hpos, ↓reduceIte, hnum, Option.map_some', Option.some.injEq] at h
  rw [parseInt_of_lt p.toNat (by omega)] at h
  omega

theorem setPointsOf_days (points : Option Int) (f : Goal → Goal)
    (h : setPointsOf points = some f) (g : Goal) :
    (f g).id = g.id ∧ (f g).goalName = g.goalName ∧ (f g).days = g.days := by
  unfold setPointsOf at h
  cases points with
  | none =>
    rw [← Option.some.inj h]
    exact ⟨rfl, rfl, rfl⟩
  | some p =>
    simp only at h
    split_ifs at h with hpos
    · cases hx : toNumber p.toNat with
      | none => simp [hx] at h
      | some x =>
        simp only [hx, Option.map_some', Option.some.injEq] at h
        rw [← h]
        exact ⟨rfl, rfl, rfl⟩
    · rw [← Option.some.inj h]
      exact ⟨rfl, rfl, rfl⟩

theorem setPointsOf_finite (points : Option Int)
    (h : ∀ p : Int, points = some p → p < 2 ^ 1024 - 2 ^ 970) :
    ∃ f, setPointsOf points = some f ∧
      (∀ p : Int, points = some p → 0 < p →
        ∃ x, toNumber p.toNat = some x ∧ ∀ g, (f g).points = parseInt x) ∧
      ((points = none ∨ ∃ p : Int, points = some p ∧ p ≤ 0) → ∀ g, (f g).points = g.points) := by
  unfold setPointsOf
  cases points with
  | none =>
    refine ⟨_, rfl, ?_, ?_⟩
    · intro p hp
      cases hp
    · intro _ g
      rfl
  | some p =>
    simp only
    by_cases hpos : p > 0
    · have hlt := h p rfl
      obtain ⟨x, hx⟩ := toNumber_finite p.toNat (by omega)
      rw [if_pos hpos, hx]
      refine ⟨_, rfl, ?_, ?_⟩
      · intro q hq _
        cases hq
        exact ⟨x, hx, fun _ => rfl⟩
      · intro hq g
        rcases hq with hq | ⟨q, hq, hle⟩
        · cases hq
        · cases hq
          omega
    · rw [if_neg hpos]
      refine ⟨_, rfl, ?_, ?_⟩
      · intro q hq hqpos
        cases hq
        omega
      · intro _ g
        rfl

/-! ## Properties of the binary64 roundings -/

/-- The rounding to the nearest integer is within one half of the quotient. -/
theorem roundHalfEven_error (n d : Nat) (hd : 0 < d) :
    2 * (roundHalfEven n d * d) ≤ 2 * n + d ∧ 2 * n ≤ 2 * (roundHalfEven n d * d) + d := by
  have hqr : d * (n / d) + n % d = n := Nat.div_add_mod n d
  have hr : n % d < d := Nat.mod_lt n hd
  have hmul : (n / d + 1) * d = d * (n / d) + d := by ring
  have hmul' : n / d * d = d * (n / d) := by ring
  unfold roundHalfEven
  simp only
  split_ifs <;> (try rw [hmul]) <;> (try rw [hmul']) <;> omega

/-- The exponent `log2Ratio n d` is not above the logarithm of `n / d`. -/
theorem log2Ratio_le (n d : Nat) (hn : 1 ≤ n) (hd : 1 ≤ d) :
    d * 2 ^ (log2Ratio n d).toNat ≤ n * 2 ^ (-(log2Ratio n d)).toNat := by
  obtain ⟨hn1, _⟩ := log2Floor_spec n hn
  obtain ⟨_, hd2⟩ := log2Floor_spec d hd
  unfold log2Ratio
  simp only
  split_ifs with h
  · generalize log2Floor n = a at *
    generalize log2Floor d = b at *
    by_cases hab : b < a
    · have e1 : ((a : Int) - b - 1).toNat = a - b - 1 := by omega
      have e2 : (-((a : Int) - b - 1)).toNat = 0 := by omega
      rw [e1, e2, pow_zero, Nat.mul_one]
      have hpow : 2 ^ (b + 1) * 2 ^ (a - b - 1) = 2 ^ a := by
        rw [← pow_add]; congr 1; omega
      calc d * 2 ^ (a - b - 1) ≤ 2 ^ (b + 1) * 2 ^ (a - b - 1) :=
            Nat.mul_le_mul_right _ (le_of_lt hd2)
        _ = 2 ^ a := hpow
        _ ≤ n := hn1
    · have e1 : ((a : Int) - b - 1).toNat = 0 := by omega
      have e2 : (-((a : Int) - b - 1)).toNat = b - a + 1 := by omega
      rw [e1, e2, pow_zero, Nat.mul_one]
      have hpow : 2 ^ a * 2 ^ (b - a + 1) = 2 ^ (b + 1) := by
        rw [← pow_add]; congr 1; omega
      calc d ≤ 2 ^ (b + 1) := le_of_lt hd2
        _ = 2 ^ a * 2 ^ (b - a + 1) := hpow.symm
        _ ≤ n * 2 ^ (b - a + 1) := Nat.mul_le_mul_right _ hn1
  · exact Nat.le_of_not_lt h

/-- The scaled quotient that `fl` rounds has at least 53 bits. -/
theorem fl_precision (n d : Nat) (hn : 1 ≤ n) (hd : 1 ≤ d) :
    2 ^ 52 * (d * 2 ^ (log2Ratio n d - 52).toNat) ≤
      n * 2 ^ (-(log2Ratio n d - 52)).toNat := by
  have h := log2Ratio_le n d hn hd
  generalize log2Ratio n d = E at *
  by_cases hE : 52 ≤ E
  · have e1 : (E - 52).toNat + 52 = E.toNat := by omega
    have e2 : (-(E - 52)).toNat = 0 := by omega
    have e3 : (-E).toNat = 0 := by omega
    rw [e2, pow_zero, Nat.mul_one]
    rw [e3, pow_zero, Nat.mul_one, ← e1, pow_add] at h
    calc 2 ^ 52 * (d * 2 ^ (E - 52).toNat) = d * (2 ^ (E - 52).toNat * 2 ^ 52) := by ring
      _ ≤ n := h
  · have e1 : (E - 52).toNat = 0 := by omega
    have e2 : (-(E - 52)).toNat + E.toNat = (-E).toNat + 52 := by omega
    rw [e1, pow_zero, Nat.mul_one]
    have hpos : 0 < 2 ^ E.toNat := by positivity
    apply Nat.le_of_mul_le_mul_right _ hpos
    calc 2 ^ 52 * d * 2 ^ E.toNat = 2 ^ 52 * (d * 2 ^ E.toNat) := by ring
      _ ≤ 2 ^ 52 * (n * 2 ^ (-E).toNat) := Nat.mul_le_mul_left _ h
      _ = n * 2 ^ ((-E).toNat + 52) := by rw [pow_add]; ring
      _ = n * 2 ^ ((-(E - 52)).toNat + E.toNat) := by rw [e2]
      _ = n * 2 ^ (-(E - 52)).toNat * 2 ^ E.toNat := by rw [pow_add]; ring

/-- The relative error of a binary64 rounding is at most `2^-53`. -/
theorem fl_error (n d : Nat) (hd : 1 ≤ d) :
    0 < (fl n d).den ∧
    |(fl n d).toRat - (n : ℚ) / d| ≤ (n : ℚ) / d / 2 ^ 53 := by
  by_cases hn : n = 0
  · subst hn
    simp [fl, Float64.toRat]
  have hn1 : 1 ≤ n := Nat.one_le_iff_ne_zero.2 hn
  have hP := fl_precision n d hn1 hd
  unfold fl Float64.toRat
  rw [if_neg hn]
  simp only
  generalize (log2Ratio n d - 52).toNat = down at hP ⊢
  generalize (-(log2Ratio n d - 52)).toNat = up at hP ⊢
  have hDpos : 0 < d * 2 ^ down := Nat.mul_pos hd (by positivity)
  obtain ⟨hR1, hR2⟩ := roundHalfEven_error (n * 2 ^ up) (d * 2 ^ down) hDpos
  generalize roundHalfEven (n * 2 ^ up) (d * 2 ^ down) = m at hR1 hR2 ⊢
  refine ⟨by positivity, ?_⟩
  have hU : (0 : ℚ) < 2 ^ up := by positivity
  have hW : (0 : ℚ) < 2 ^ down := by positivity
  have hdq : (0 : ℚ) < d := by exact_mod_cast hd
  have hUd : (0 : ℚ) < 2 ^ up * d := by positivity
  have hP' : (2 : ℚ) ^ 52 * (d * 2 ^ down) ≤ n * 2 ^ up := by exact_mod_cast hP
  have hR1' : (2 : ℚ) * (m * (d * 2 ^ down)) ≤ 2 * (n * 2 ^ up) + d * 2 ^ down := by
    exact_mod_cast hR1
  have hR2' : (2 : ℚ) * (n * 2 ^ up) ≤ 2 * (m * (d * 2 ^ down)) + d * 2 ^ down := by
    exact_mod_cast hR2
  have hX : ((m * 2 ^ down : Nat) : ℚ) / ((2 ^ up : Nat) : ℚ) =
      ((m : ℚ) * (d * 2 ^ down)) / (2 ^ up * d) := by
    push_cast
    field_simp
    ring
  have hq : (n : ℚ) / d = ((n : ℚ) * 2 ^ up) / (2 ^ up * d) := by
    field_simp
    ring
  rw [hX, hq, ← sub_div, abs_le]
  have hbound : ((n : ℚ) * 2 ^ up) / (2 ^ up * d) / 2 ^ 53 =
      ((n : ℚ) * 2 ^ up / 2 ^ 53) / (2 ^ up * d) := by
    field_simp
    ring
  rw [hbound, ← neg_div]
  constructor
  · apply div_le_div_of_nonneg_right _ (le_of_lt hUd)
    have : (n : ℚ) * 2 ^ up / 2 ^ 53 * 2 ^ 53 = n * 2 ^ up := by field_simp
    nlinarith
  · apply div_le_div_of_nonneg_right _ (le_of_lt hUd)
    have : (n : ℚ) * 2 ^ up / 2 ^ 53 * 2 ^ 53 = n * 2 ^ up := by field_simp
    nlinarith

/-- JavaScript `Math.round` is the floor of the number plus one half. -/
theorem round_spec (x : Float64) (hden : 0 < x.den) :
    (x.round : ℚ) ≤ x.toRat + 1 / 2 ∧ x.toRat + 1 / 2 < (x.round : ℚ) + 1 := by
  have hpos : 0 < 2 * x.den := by omega
  have h1 : (2 * x.num + x.den) / (2 * x.den) * (2 * x.den) ≤ 2 * x.num + x.den :=
    Nat.div_mul_le_self _ _
  have h2 : 2 * x.num + x.den < ((2 * x.num + x.den) / (2 * x.den) + 1) * (2 * x.den) := by
    have := Nat.lt_succ_self ((2 * x.num + x.den) / (2 * x.den))
    exact (Nat.div_lt_iff_lt_mul hpos).1 this
  unfold Float64.round Float64.toRat
  generalize (2 * x.num + x.den) / (2 * x.den) = r at h1 h2 ⊢
  have hq : (0 : ℚ) < x.den := by exact_mod_cast hden
  have h1' : (r : ℚ) * (2 * x.den) ≤ 2 * x.num + x.den := by exact_mod_cast h1
  have h2' : (2 : ℚ) * x.num + x.den < (r + 1) * (2 * x.den) := by exact_mod_cast h2
  constructor
  · rw [show (x.num : ℚ) / x.den + 1 / 2 = (2 * x.num + x.den) / (2 * x.den) by
      field_simp; ring]
    rw [le_div_iff₀ (by positivity)]
    exact h1'
  · rw [show (x.num : ℚ) / x.den + 1 / 2 = (2 * x.num + x.den) / (2 * x.den) by
      field_simp; ring]
    rw [div_lt_iff₀ (by positivity)]
    exact h2'

/-- The computed percentage before `Math.round` is within `300 * 2^-53` of the
exact percentage. -/
theorem percentage_error (a b : Nat) (hb : 1 ≤ b) (hab : a ≤ b) :
    0 < ((Float64.divide a b).times 100).den ∧
    |((Float64.divide a b).times 100).toRat - 100 * (a : ℚ) / b| ≤ 300 / 2 ^ 53 := by
  obtain ⟨hden1, herr1⟩ := fl_error a b hb
  unfold Float64.divide Float64.times
  obtain ⟨hden2, herr2⟩ := fl_error ((fl a b).num * 100) (fl a b).den hden1
  refine ⟨hden2, ?_⟩
  have hX1 : (((fl a b).num * 100 : Nat) : ℚ) / ((fl a b).den : ℚ) = 100 * (fl a b).toRat := by
    unfold Float64.toRat
    push_cast
    ring
  rw [hX1] at herr2
  generalize (fl ((fl a b).num * 100) (fl a b).den).toRat = X2 at herr2 ⊢
  generalize (fl a b).toRat = X1 at herr1 herr2
  have hbq : (0 : ℚ) < b := by exact_mod_cast hb
  have hq0 : (0 : ℚ) ≤ (a : ℚ) / b := by positivity
  have hq1 : (a : ℚ) / b ≤ 1 := by
    rw [div_le_one hbq]
    exact_mod_cast hab
  rw [abs_le] at herr1 herr2 ⊢
  have e : (100 : ℚ) * a / b = 100 * ((a : ℚ) / b) := by ring
  rw [e]
  generalize (a : ℚ) / b = q at *
  obtain ⟨h1l, h1u⟩ := herr1
  obtain ⟨h2l, h2u⟩ := herr2
  have hqs : q / 2 ^ 53 ≤ q := div_le_self hq0 (by norm_num)
  have hX1u : X1 ≤ 2 := by linarith
  have hlim : 100 * X1 / 2 ^ 53 ≤ 200 / 2 ^ 53 := by
    apply div_le_div_of_nonneg_right _ (by positivity)
    linarith
  have hq53 : q / 2 ^ 53 ≤ 1 / 2 ^ 53 := by
    apply div_le_div_of_nonneg_right hq1 (by positivity)
  constructor
  · have : (300 : ℚ) / 2 ^ 53 = 200 / 2 ^ 53 + 100 * (1 / 2 ^ 53) := by ring
    linarith
  · have : (300 : ℚ) / 2 ^ 53 = 200 / 2 ^ 53 + 100 * (1 / 2 ^ 53) := by ring
    linarith

/-! ## Properties of the history window -/

theorem monthStart_bounds (y mn : Int) (h0 : 0 ≤ mn) (h11 : mn ≤ 11) :
    0 ≤ monthStart mn (inLeapYear y) ∧ monthStart mn (inLeapYear y) < daysInYear y := by
  have hc := daysInYear_cases y
  interval_cases mn <;> rcases hc with ⟨hd, hl, _⟩ | ⟨hd, hl, _⟩ <;> simp [monthStart, hl, hd]

/-- The first day of month index `month` of year `year` lies in year
`year + ⌊month / 12⌋` and in month index `month mod 12`. -/
theorem makeDay_first (year month : Int) :
    yearFromDay (makeDay year month 1) = year + month / 12 ∧
    monthFromDay (makeDay year month 1) = month % 12 ∧
    dayFromYear (year + month / 12) ≤ makeDay year month 1 ∧
    makeDay year month 1 < dayFromYear (year + month / 12 + 1) := by
  have h0 : 0 ≤ month % 12 := Int.emod_nonneg _ (by decide)
  have h11 : month % 12 ≤ 11 := by omega
  obtain ⟨hb0, hb1⟩ := monthStart_bounds (year + month / 12) (month % 12) h0 h11
  have he : makeDay year month 1 = dayFromYear (year + month / 12) +
      monthStart (month % 12) (inLeapYear (year + month / 12)) := by
    unfold makeDay; ring
  obtain ⟨hy, hw⟩ := dayWithinYear_offset (year + month / 12) _ hb0 hb1
  have hs := dayFromYear_succ (year + month / 12)
  refine ⟨by rw [he]; exact hy, ?_, by omega, by omega⟩
  rw [he]
  unfold monthFromDay
  rw [hy, hw]
  have hc := daysInYear_cases (year + month / 12)
  generalize month % 12 = mn at h0 h11
  generalize year + month / 12 = ym at hc
  interval_cases mn <;> rcases hc with ⟨_, hl, _⟩ | ⟨_, hl, _⟩ <;> simp [monthStart, hl]

theorem makeDate_first (year month : Int) (hy : 100 ≤ year)
    (hlo : -271820 ≤ year + month / 12) (hhi : year + month / 12 ≤ 275759) :
    makeDate year month 1 = some (makeDay year month 1) := by
  obtain ⟨_, _, hge, hlt⟩ := makeDay_first year month
  have hfull : makeFullYear year = year := by
    unfold makeFullYear; rw [if_neg]; omega
  unfold makeDate timeClip
  rw [hfull, if_pos]
  generalize makeDay year month 1 = day at *
  generalize year + month / 12 = ym at *
  unfold dayFromYear at hge hlt
  omega

theorem historyLoop_zero (store : Store) (userId : Nat) (today : Today) (i : Nat)
    (results : List HistoryEntry) :
    historyLoop store userId today 0 i results = some results :=
  rfl

theorem historyLoop_succ (store : Store) (userId : Nat) (today : Today) (count i : Nat)
    (results : List HistoryEntry) :
    historyLoop store userId today (count + 1) i results =
      match historyStep store userId today i with
      | none => none
      | some entry => historyLoop store userId today count (i + 1) (results ++ [entry]) :=
  rfl

theorem historyLoop_eq (store : Store) (userId : Nat) (today : Today)
    (hy : 100 ≤ today.year) :
    ∀ (count i : Nat) (results : List HistoryEntry),
      (∀ k : Nat, i ≤ k → k < i + count →
        -271820 ≤ today.year + (today.month - k) / 12 ∧
        today.year + (today.month - k) / 12 ≤ 275759) →
      historyLoop store userId today count i results =
        some (results ++ (List.range' i count).map fun k : Nat =>
          historyEntry store userId (today.year + (today.month - (k : Int)) / 12)
            ((today.month - (k : Int)) % 12 + 1)) := by
  intro count
  induction count with
  | zero => intro i results _; simp [historyLoop_zero]
  | succ count ih =>
    intro i results h
    obtain ⟨hlo, hhi⟩ := h i (le_refl i) (by omega)
    obtain ⟨hyear, hmonth, _, _⟩ := makeDay_first today.year (today.month - i)
    have hstep : historyStep store userId today i =
        some (historyEntry store userId (today.year + (today.month - (i : Int)) / 12)
          ((today.month - (i : Int)) % 12 + 1)) := by
      unfold historyStep
      rw [makeDate_first today.year (today.month - i) hy hlo hhi]
      simp only [hyear, hmonth]
    rw [historyLoop_succ, hstep]
    simp only
    rw [ih (i + 1) _ (fun k hk1 hk2 => h k (by omega) (by omega))]
    simp [List.range'_succ]

theorem historyLoop_none (store : Store) (userId : Nat) (today : Today) :
    ∀ (count i : Nat) (results : List HistoryEntry) (k : Nat), i ≤ k → k < i + count →
      makeDate today.year (today.month - k) 1 = none →
      historyLoop store userId today count i results = none := by
  intro count
  induction count with
  | zero => intro i results k h1 h2; omega
  | succ count ih =>
    intro i results k h1 h2 hk
    rw [historyLoop_succ]
    cases hd : historyStep store userId today i with
    | none => rfl
    | some entry =>
      simp only
      have hne : i ≠ k := by
        intro h
        rw [h] at hd
        unfold historyStep at hd
        rw [hk] at hd
        cases hd
      exact ih (i + 1) _ k (by omega) (by omega) hk

theorem computeHistory_eq (store : Store) (userId : Nat) (today : Today) (n : Nat)
    (hy : 100 ≤ today.year) (hhi : today.year ≤ 275759)
    (hm0 : 0 ≤ today.month) (hm11 : today.month ≤ 11)
    (hn : (n : Int) ≤ 12 * (today.year + 271820)) :
    computeHistory store userId today n =
      HistoryResponse.ok
        ((List.range' 0 n).map fun k : Nat =>
          historyEntry store userId (today.year + (today.month - (k : Int)) / 12)
            ((today.month - (k : Int)) % 12 + 1)).reverse
        (((List.range' 0 n).map fun k : Nat =>
          historyEntry store userId (today.year + (today.month - (k : Int)) / 12)
            ((today.month - (k : Int)) % 12 + 1)).foldl betterMonth none)
        (((List.range' 0 n).map fun k : Nat =>
          historyEntry store userId (today.year + (today.month - (k : Int)) / 12)
            ((today.month - (k : Int)) % 12 + 1)).foldl moreConsistentMonth none) := by
  unfold computeHistory
  rw [Int.toNat_ofNat, historyLoop_eq store userId today hy n 0 [] (fun k _ hk => by omega)]
  simp

theorem historyEntry_year_month (store : Store) (userId : Nat) (year month : Int) :
    (historyEntry store userId year month).year = year ∧
    (historyEntry store userId year month).month = month := by
  unfold historyEntry
  cases getDaysInMonth month year <;> exact ⟨rfl, rfl⟩

/-! ## The length of a month -/

/-- C5 (counterexample): for February of year 0, a leap year by the Gregorian
rule (0 is divisible by 400), `getDaysInMonth` is 28: the `Date` constructor
reads year 0 as 1900.  Beyond the range of `Date` the result is `NaN`. -/
theorem getDaysInMonth_year_zero :
    getDaysInMonth 2 0 = some 28 ∧ gregorianMonthLength 2 0 = 29 ∧
    getDaysInMonth 1 275761 = none := by
  decide

/-- C5 (amended): for every month 1..12 and every year from -271820 to 275759
other than 0, `getDaysInMonth` is the Gregorian length of the month. -/
theorem getDaysInMonth_gregorian (month year : Int) (h1 : 1 ≤ month) (h12 : month ≤ 12)
    (hlo : -271820 ≤ year) (hhi : year ≤ 275759) (h0 : year ≠ 0) :
    getDaysInMonth month year = some (gregorianMonthLength month year) := by
  rw [getDaysInMonth_eq month year h1 h12 hlo hhi]
  congr 1
  unfold makeFullYear gregorianMonthLength
  split_ifs <;> first | rfl | omega

theorem getDaysInMonth_gregorian_witness :
    getDaysInMonth 2 2024 = some 29 ∧ getDaysInMonth 2 2023 = some 28 :=
  ⟨getDaysInMonth_gregorian 2 2024 (by decide) (by decide) (by decide) (by decide) (by decide),
   getDaysInMonth_gregorian 2 2023 (by decide) (by decide) (by decide) (by decide) (by decide)⟩

/-- C20: normalising a day record to a length `d` and normalising the result to
`d` again gives what normalising once gives, and a day record that already has
length `d` is returned unchanged.  The journal read and `toggleDay` run the same
statements, embedded once as `normalizeDays`. -/
theorem normalizeDays_idempotent (days : List Bool) (d : Nat) :
    normalizeDays (normalizeDays days (some d)) (some d) = normalizeDays days (some d) ∧
    (days.length = d → normalizeDays days (some d) = days) :=
  ⟨normalizeDays_of_length _ _ (normalizeDays_length days d),
   normalizeDays_of_length days d⟩

theorem normalizeDays_idempotent_witness :
    normalizeDays (normalizeDays [true, false, true] (some 2)) (some 2) =
      normalizeDays [true, false, true] (some 2) ∧
    normalizeDays [true, false] (some 2) = [true, false] :=
  ⟨(normalizeDays_idempotent [true, false, true] 2).1,
   (normalizeDays_idempotent [true, false] 2).2 rfl⟩

/-! ## The goal ledger: reading, adding, updating and removing -/

/-- C4: for a stored journal, `getOrCreateJournal` answers and saves a journal
with the same goals in the same order, names and points, each `days` having the
length of the month, agreeing with the stored flags on every index below both
lengths and being `false` from the stored length on. -/
theorem getOrCreateJournal_normalizes (store : Store) (userId : Nat) (year month : Int)
    (journal : Journal) (d : Nat)
    (hfind : findOne store userId year month = some journal)
    (hd : getDaysInMonth month year = some d) :
    ∃ journal' : Journal,
      getOrCreateJournal store userId year month =
        (save store journal', Response.ok journal') ∧
      findOne (save store journal') userId year month = some journal' ∧
      List.Forall₂
        (fun g g' : Goal =>
          g'.id = g.id ∧ g'.goalName = g.goalName ∧ g'.points = g.points ∧
          g'.days.length = d ∧
          (∀ k, k < g.days.length → k < d → g'.days[k]? = g.days[k]?) ∧
          (∀ k, g.days.length ≤ k → k < d → g'.days[k]? = some false))
        journal.goals journal'.goals := by
  obtain ⟨hu, hy, hm⟩ := findOne_key hfind
  refine ⟨{ journal with
      goals := journal.goals.map fun goal =>
        { goal with days := normalizeDays goal.days (some d) } }, ?_, ?_, ?_⟩
  · unfold getOrCreateJournal
    simp only [hfind, hd]
  · have := findOne_save store { journal with
      goals := journal.goals.map fun goal =>
        { goal with days := normalizeDays goal.days (some d) } }
    simpa only [hu, hy, hm] using this
  · simp only
    rw [List.forall₂_map_right_iff]
    apply List.forall₂_same.2
    intro g _
    refine ⟨rfl, rfl, rfl, normalizeDays_length _ _, ?_, ?_⟩
    · intro k hk hkd
      exact normalizeDays_getElem?_lt _ _ _ hkd hk
    · intro k hk hkd
      exact normalizeDays_getElem?_ge _ _ _ hkd hk

theorem getOrCreateJournal_normalizes_witness :
    ∃ journal' : Journal,
      getOrCreateJournal [staleJournal] 7 2024 2 =
        (save [staleJournal] journal', Response.ok journal') ∧
      List.Forall₂ (fun g g' : Goal => g'.id = g.id ∧ g'.days.length = 29)
        staleJournal.goals journal'.goals :=
  match getOrCreateJournal_normalizes [staleJournal] 7 2024 2 staleJournal 29
    (by decide) (by decide) with
  | ⟨j, h, _, hall⟩ => ⟨j, h, hall.imp fun _ _ hg => ⟨hg.1, hg.2.2.2.1⟩⟩

/-- C9 (amended): for a name that is not empty after trimming, a month 1..12,
a month with a day count and points that are absent or below `2^1024 - 2^970`,
`addGoal` answers and saves the journal whose goals are the stored goals (none
when the key had no journal), unchanged and in order, followed by one new goal
carrying the trimmed name and one `false` flag for every day of the month. -/
theorem addGoal_appends (store : Store) (userId : Nat) (year month : Int)
    (name : String) (points : Option Int) (newId : Nat) (d : Nat)
    (hname : trim name ≠ "") (hmonth : 1 ≤ month ∧ month ≤ 12)
    (hd : getDaysInMonth month year = some d)
    (hpoints : ∀ p : Int, points = some p → p < 2 ^ 1024 - 2 ^ 970) :
    ∃ (journal' : Journal) (g : Goal),
      addGoal store userId year month (some name) points newId =
        (save store journal', Response.ok journal') ∧
      findOne (save store journal') userId year month = some journal' ∧
      journal'.goals =
        (match findOne store userId year month with
          | some journal => journal.goals
          | none => []) ++ [g] ∧
      g.goalName = trim name ∧ g.days.length = d ∧ (∀ flag ∈ g.days, flag = false) := by
  have hne : name ≠ "" := by
    intro h
    rw [h] at hname
    exact hname trim_empty
  have hvalid : validMonth month = true := by simp [validMonth, hmonth]
  obtain ⟨gp, hgp⟩ := goalPointsOf_finite points hpoints
  unfold addGoal
  simp only [hne, hname, or_self, ↓reduceIte, hd, hgp, hvalid, not_true_eq_false, and_false]
  cases hf : findOne store userId year month with
  | none =>
    refine ⟨_, _, rfl, ?_, rfl, rfl, by simp [initializeDaysArray], ?_⟩
    · exact findOne_save store { userId := userId, year := year, month := month
                                 goals := [] ++ [{ id := newId, goalName := trim name
                                                   points := gp
                                                   days := initializeDaysArray d }] }
    · intro flag hflag
      simp only [initializeDaysArray] at hflag
      exact List.eq_of_mem_replicate hflag
  | some journal =>
    obtain ⟨hu, hy, hm⟩ := findOne_key hf
    refine ⟨_, _, rfl, ?_, rfl, rfl, by simp [initializeDaysArray], ?_⟩
    · have := findOne_save store { journal with
        goals := journal.goals ++ [{ id := newId, goalName := trim name
                                     points := gp
                                     days := initializeDaysArray d }] }
      simpa only [hu, hy, hm] using this
    · intro flag hflag
      simp only [initializeDaysArray] at hflag
      exact List.eq_of_mem_replicate hflag

theorem addGoal_appends_witness :
    ∃ (journal' : Journal) (g : Goal),
      addGoal [] 7 2024 2 (some " Read ") (some 2) 100 =
        (save [] journal', Response.ok journal') ∧
      journal'.goals = [] ++ [g] ∧ g.goalName = "Read" ∧ g.days.length = 29 :=
  match addGoal_appends [] 7 2024 2 " Read " (some 2) 100 29
    (by decide) (by decide) (by decide)
    (fun p hp => by cases hp; norm_num) with
  | ⟨j, g, h, _, hgoals, hn, hlen, _⟩ => ⟨j, g, h, hgoals, hn, hlen⟩

/-- C9 (counterexample): with the name "Read" and supplied points 10^309, which
`JSON.parse` reads as `Infinity`, `addGoal` answers 500 and saves nothing: the
points of the new goal are `parseInt(Infinity)`, which is `NaN`. -/
theorem addGoal_points_infinity :
    trim "Read" ≠ "" ∧ getDaysInMonth 2 2024 = some 29 ∧
    addGoal [] 7 2024 2 (some "Read") (some (10 ^ 309)) 100 = ([], Response.serverError) := by
  have hname : trim "Read" ≠ "" := by decide
  have hd : getDaysInMonth 2 2024 = some 29 := by decide
  have hpoints : goalPointsOf (some (10 ^ 309)) = none := by
    have hpos : (10 : Int) ^ 309 > 0 := by positivity
    have hnum : toNumber ((10 : Int) ^ 309).toNat = none :=
      toNumber_infinity _ (by omega)
    unfold goalPointsOf
    simp only [hpos, ↓reduceIte, hnum, Option.map_none']
  refine ⟨hname, hd, ?_⟩
  unfold addGoal
  have hne : ("Read" : String) ≠ "" := by decide
  simp only [hne, hname, or_self, ↓reduceIte, hd, hpoints]

/-- C10 (amended): after a successful `addGoal` the points of the appended
goal are 1 when no points were supplied or the supplied points are 0 or
negative; they are the supplied value when it is a positive integer below 10^21
that is a binary64 number, as every integer up to 2^53 is; and they are at least
1 in every case. -/
theorem addGoal_points (store store' : Store) (userId : Nat) (year month : Int)
    (goalName : Option String) (points : Option Int) (newId : Nat) (journal' : Journal)
    (h : addGoal store userId year month goalName points newId =
      (store', Response.ok journal')) :
    ∃ g : Goal, journal'.goals.getLast? = some g ∧
      (points = none → g.points = 1) ∧
      (∀ p : Int, points = some p → p ≤ 0 → g.points = 1) ∧
      (∀ p : Int, points = some p → 0 < p → p < 10 ^ 21 →
        toNumber p.toNat = some p.toNat → (g.points : Int) = p) ∧
      (∀ p : Int, points = some p → 0 < p → p ≤ 2 ^ 53 → (g.points : Int) = p) ∧
      1 ≤ g.points := by
  unfold addGoal at h
  cases goalName with
  | none => simp at h
  | some name =>
    simp only at h
    by_cases hn : name = "" ∨ trim name = ""
    · rw [if_pos hn] at h
      simp at h
    · rw [if_neg hn] at h
      cases hd : getDaysInMonth month year with
      | none => simp [hd] at h
      | some d =>
        cases hgp : goalPointsOf points with
        | none => simp [hd, hgp] at h
        | some gp =>
          simp only [hd, hgp] at h
          by_cases hv : (findOne store userId year month).isNone = true ∧
              ¬validMonth month = true
          · rw [if_pos hv] at h
            simp at h
          · rw [if_neg hv] at h
            simp only [Prod.mk.injEq, Response.ok.injEq] at h
            obtain ⟨_, rfl⟩ := h
            refine ⟨_, List.getLast?_concat _, ?_, ?_, ?_, ?_, ?_⟩
            · intro hp
              subst hp
              exact (Option.some.inj hgp).symm
            · intro p hp hle
              subst hp
              have hneg : ¬ p > 0 := by omega
              unfold goalPointsOf at hgp
              simp only [hneg, ↓reduceIte, Option.some.injEq] at hgp
              exact hgp.symm
            · intro p hp hpos hlt hnum
              subst hp
              exact goalPointsOf_of_number p hpos hlt hnum gp hgp
            · intro p hp hpos hle
              subst hp
              exact goalPointsOf_of_number p hpos (by omega)
                (toNumber_of_le _ (by omega)) gp hgp
            · exact goalPointsOf_pos points gp hgp

theorem addGoal_points_witness :
    ∃ g : Goal, februaryJournal.goals.getLast? = some g ∧ (g.points : Int) = 2 :=
  match addGoal_points [] [februaryJournal] 7 2024 2 (some " Read ") (some 2) 100
    februaryJournal (by decide) with
  | ⟨g, hg, _, _, _, hp, _⟩ => ⟨g, hg, hp 2 rfl (by decide) (by decide)⟩

set_option exponentiation.threshold 1024 in
/-- C10 (counterexample): with supplied points 10^21, a positive integer,
`addGoal` stores 1: the number is written `1e+21` and `parseInt` reads the
digit before the `e`. -/
theorem addGoal_points_exponent :
    addGoal [] 7 2024 2 (some "Read") (some 1000000000000000000000) 100 =
      ([{ userId := 7, year := 2024, month := 2
          goals := [{ id := 100, goalName := "Read", points := 1
                      days := List.replicate 29 false }] }],
       Response.ok { userId := 7, year := 2024, month := 2
                     goals := [{ id := 100, goalName := "Read", points := 1
                                 days := List.replicate 29 false }] }) := by
  decide

/-- C11: `addGoal` with no name, or a name that is empty after trimming, answers
400 'Goal name is required' and leaves the store as it was. -/
theorem addGoal_name_required (store : Store) (userId : Nat) (year month : Int)
    (goalName : Option String) (points : Option Int) (newId : Nat)
    (hname : goalName = none ∨ ∃ name, goalName = some name ∧ trim name = "") :
    addGoal store userId year month goalName points newId =
      (store, Response.badRequest "Goal name is required") := by
  unfold addGoal
  rcases hname with rfl | ⟨name, rfl, hn⟩
  · rfl
  · simp [hn]

theorem addGoal_name_required_witness :
    addGoal [februaryJournal] 7 2024 2 (some "  ") (some 3) 5 =
      ([februaryJournal], Response.badRequest "Goal name is required") :=
  addGoal_name_required [februaryJournal] 7 2024 2 (some "  ") (some 3) 5
    (Or.inr ⟨"  ", rfl, by decide⟩)

theorem goalById_modifyGoal (goals : List Goal) (goalId : Nat) (f : Goal → Goal)
    (hf : ∀ g, (f g).id = g.id) :
    goalById (modifyGoal goals goalId f) goalId = (goalById goals goalId).map f := by
  induction goals with
  | nil => simp [modifyGoal, goalById]
  | cons x rest ih =>
    unfold goalById at ih ⊢
    unfold modifyGoal
    by_cases hx : x.id = goalId
    · simp [hx, hf]
    · simp [hx, List.find?_cons, ih]

theorem setAt_length_of_lt (days : List Bool) (i : Nat) (v : Bool) (h : i < days.length) :
    (setAt days i v).length = days.length := by
  simp [setAt, h]

/-- C3 (amended): `getOrCreateJournal` returns every goal with a day record of
the length of the month, whatever the stored lengths; `addGoal`, `updateGoal`,
`removeGoal` and `toggleDay` return every goal with that length when every goal
of the stored journal had it; and whatever the stored lengths, the goal that
`addGoal` appends and the goal that `toggleDay` toggles have it. -/
theorem ledger_days_length (store : Store) (userId : Nat) (year month : Int) (d : Nat)
    (hd : getDaysInMonth month year = some d) :
    (∀ store' journal', getOrCreateJournal store userId year month =
        (store', Response.ok journal') → ∀ g ∈ journal'.goals, g.days.length = d) ∧
    ((∀ journal, findOne store userId year month = some journal →
        ∀ g ∈ journal.goals, g.days.length = d) →
      (∀ goalName points newId store' journal',
        addGoal store userId year month goalName points newId =
          (store', Response.ok journal') → ∀ g ∈ journal'.goals, g.days.length = d) ∧
      (∀ goalId goalName points store' journal',
        updateGoal store userId year month goalId goalName points =
          (store', Response.ok journal') → ∀ g ∈ journal'.goals, g.days.length = d) ∧
      (∀ goalId store' journal',
        removeGoal store userId year month goalId =
          (store', Response.ok journal') → ∀ g ∈ journal'.goals, g.days.length = d) ∧
      (∀ goalId day store' journal',
        toggleDay store userId year month goalId day =
          (store', Response.ok journal') → ∀ g ∈ journal'.goals, g.days.length = d)) ∧
    (∀ goalName points newId store' journal',
      addGoal store userId year month goalName points newId =
        (store', Response.ok journal') →
      ∃ g, journal'.goals.getLast? = some g ∧ g.days.length = d) ∧
    (∀ goalId day store' journal',
      toggleDay store userId year month goalId day = (store', Response.ok journal') →
      ∃ g, goalById journal'.goals goalId = some g ∧ g.days.length = d) := by
  have haddGoal : ∀ goalName points newId store' journal',
      addGoal store userId year month goalName points newId =
        (store', Response.ok journal') →
      ∃ name gp, journal'.goals =
        (match findOne store userId year month with
          | some journal => journal.goals
          | none => []) ++
        [{ id := newId, goalName := name, points := gp,
           days := initializeDaysArray d }] := by
    intro goalName points newId store' journal' h
    unfold addGoal at h
    cases goalName with
    | none => simp at h
    | some name =>
      simp only at h
      by_cases hn : name = "" ∨ trim name = ""
      · rw [if_pos hn] at h
        simp at h
      · rw [if_neg hn] at h
        cases hgp : goalPointsOf points with
        | none => simp [hd, hgp] at h
        | some gp =>
          simp only [hd, hgp] at h
          by_cases hv : (findOne store userId year month).isNone = true ∧
              ¬validMonth month = true
          · rw [if_pos hv] at h
            simp at h
          · rw [if_neg hv] at h
            simp only [Prod.mk.injEq, Response.ok.injEq] at h
            obtain ⟨_, rfl⟩ := h
            refine ⟨trim name, gp, ?_⟩
            cases findOne store userId year month <;> rfl
  have htoggle : ∀ goalId day store' journal',
      toggleDay store userId year month goalId day = (store', Response.ok journal') →
      ∃ journal i, findOne store userId year month = some journal ∧ i < d ∧
        (∃ goal, goalById journal.goals goalId = some goal) ∧
        journal'.goals = modifyGoal journal.goals goalId fun goal =>
          { goal with
            days := setAt (normalizeDays goal.days (some d)) i
              (notAt (normalizeDays goal.days (some d)) i) } := by
    intro goalId day store' journal' h
    unfold toggleDay at h
    cases hf : findOne store userId year month with
    | none => simp [hf] at h
    | some journal =>
      cases hg : goalById journal.goals goalId with
      | none => simp [hf, hg] at h
      | some goal =>
        simp only [hf, hg, hd] at h
        by_cases hc : day - 1 < 0 ∨ geDays (day - 1) (some d) = true
        · rw [if_pos hc] at h
          simp at h
        · rw [if_neg hc] at h
          simp only [Prod.mk.injEq, Response.ok.injEq] at h
          obtain ⟨_, rfl⟩ := h
          refine ⟨journal, (day - 1).toNat, rfl, ?_, ⟨goal, hg⟩, rfl⟩
          simp only [geDays, decide_eq_true_eq, not_or, not_lt, ge_iff_le, not_le] at hc
          omega
  refine ⟨?_, ?_, ?_, ?_⟩
  · intro store' journal' h
    unfold getOrCreateJournal at h
    cases hf : findOne store userId year month with
    | none =>
      simp only [hf] at h
      by_cases hv : validMonth month = true
      · rw [if_pos hv] at h
        simp only [Prod.mk.injEq, Response.ok.injEq] at h
        obtain ⟨_, rfl⟩ := h
        simp
      · rw [if_neg hv] at h
        simp at h
    | some journal =>
      simp only [hf, hd, Prod.mk.injEq, Response.ok.injEq] at h
      obtain ⟨_, rfl⟩ := h
      intro g hg
      simp only [List.mem_map] at hg
      obtain ⟨g0, _, rfl⟩ := hg
      exact normalizeDays_length _ _
  · intro hinv
    refine ⟨?_, ?_, ?_, ?_⟩
    · intro goalName points newId store' journal' h
      obtain ⟨name, gp, hgoals⟩ := haddGoal goalName points newId store' journal' h
      rw [hgoals]
      intro g hg
      rcases List.mem_append.1 hg with hg | hg
      · cases hf : findOne store userId year month with
        | none => simp [hf] at hg
        | some journal =>
          simp only [hf] at hg
          exact hinv journal hf g hg
      · simp only [List.mem_singleton] at hg
        subst hg
        simp [initializeDaysArray]
    · intro goalId goalName points store' journal' h
      unfold updateGoal at h
      cases hf : findOne store userId year month with
      | none => simp [hf] at h
      | some journal =>
        cases hg : goalById journal.goals goalId with
        | none => simp [hf, hg] at h
        | some goal =>
          cases hset : setPointsOf points with
          | none => simp [hf, hg, hset] at h
          | some setPoints =>
            simp only [hf, hg, hset, Prod.mk.injEq, Response.ok.injEq] at h
            obtain ⟨_, rfl⟩ := h
            apply goalById_none_modifyGoal _ _ _ (fun g => g.days.length = d) _
              (hinv journal hf)
            intro g hlen
            rw [(setPointsOf_days points setPoints hset _).2.2]
            cases goalName <;> simp only <;> (try split_ifs) <;> exact hlen
    · intro goalId store' journal' h
      unfold removeGoal at h
      cases hf : findOne store userId year month with
      | none => simp [hf] at h
      | some journal =>
        cases hg : goalById journal.goals goalId with
        | none => simp [hf, hg] at h
        | some goal =>
          simp only [hf, hg, Prod.mk.injEq, Response.ok.injEq] at h
          obtain ⟨_, rfl⟩ := h
          intro g hmem
          exact hinv journal hf g (mem_removeGoalById _ _ g hmem)
    · intro goalId day store' journal' h
      obtain ⟨journal, i, hf, hi, _, hgoals⟩ := htoggle goalId day store' journal' h
      rw [hgoals]
      apply goalById_none_modifyGoal _ _ _ (fun g => g.days.length = d) _ (hinv journal hf)
      intro g _
      simp only
      rw [setAt_length_of_lt _ _ _ (by rw [normalizeDays_length]; exact hi),
        normalizeDays_length]
  · intro goalName points newId store' journal' h
    obtain ⟨name, gp, hgoals⟩ := haddGoal goalName points newId store' journal' h
    rw [hgoals]
    exact ⟨_, List.getLast?_concat _, by simp [initializeDaysArray]⟩
  · intro goalId day store' journal' h
    obtain ⟨journal, i, hf, hi, ⟨goal, hgoal⟩, hgoals⟩ := htoggle goalId day store' journal' h
    rw [hgoals, goalById_modifyGoal, hgoal]
    · refine ⟨_, rfl, ?_⟩
      simp only
      rw [setAt_length_of_lt _ _ _ (by rw [normalizeDays_length]; exact hi),
        normalizeDays_length]
    · intro g
      rfl

/-- C3 (counterexample): on a stored journal whose goal has a single flag,
`addGoal` succeeds and the journal it answers still holds that goal with one
flag, in a month of 29 days. -/
theorem addGoal_keeps_stale_length :
    getDaysInMonth 2 2024 = some 29 ∧
    (addGoal [staleJournal] 7 2024 2 (some "Walk") none 102).2 =
      Response.ok { staleJournal with
        goals := [staleGoal,
          { id := 102, goalName := "Walk", points := 1, days := List.replicate 29 false }] } ∧
    staleGoal.days.length = 1 := by
  decide

theorem ledger_days_length_witness :
    ({ staleGoal with days := normalizeDays staleGoal.days (some 29) } : Goal).days.length =
      29 :=
  (ledger_days_length [staleJournal] 7 2024 2 29 (by decide)).1
    (save [staleJournal] { staleJournal with
        goals := [{ staleGoal with days := normalizeDays staleGoal.days (some 29) }] })
    { staleJournal with
        goals := [{ staleGoal with days := normalizeDays staleGoal.days (some 29) }] }
    (by decide) _ (List.mem_singleton.2 rfl)

/-- C12 (amended): `updateGoal` on a stored goal, with points that are absent
or below `2^1024 - 2^970`, answers and saves the journal in which the goal's
name is the trimmed supplied name when a name is supplied that is not empty after
trimming, and the stored name otherwise; its points are what `parseInt` reads
from the supplied number when points above 0 are supplied, which is the supplied
value when it is below 10^21 and a binary64 number, as every integer up to 2^53
is, and the stored points otherwise; its id and days and every other goal are as
stored. -/
theorem updateGoal_fields (store : Store) (userId : Nat) (year month : Int)
    (journal : Journal) (pre post : List Goal) (g : Goal)
    (goalName : Option String) (points : Option Int)
    (hfind : findOne store userId year month = some journal)
    (hgoals : journal.goals = pre ++ g :: post) (hpre : ∀ x ∈ pre, x.id ≠ g.id)
    (hpoints : ∀ p : Int, points = some p → p < 2 ^ 1024 - 2 ^ 970) :
    ∃ g' : Goal,
      updateGoal store userId year month g.id goalName points =
        (save store { journal with goals := pre ++ g' :: post },
         Response.ok { journal with goals := pre ++ g' :: post }) ∧
      g'.id = g.id ∧ g'.days = g.days ∧
      (∀ name, goalName = some name → trim name ≠ "" → g'.goalName = trim name) ∧
      ((goalName = none ∨ ∃ name, goalName = some name ∧ trim name = "") →
        g'.goalName = g.goalName) ∧
      (∀ p : Int, points = some p → 0 < p →
        ∃ x, toNumber p.toNat = some x ∧ g'.points = parseInt x) ∧
      (∀ p : Int, points = some p → 0 < p → p < 10 ^ 21 →
        toNumber p.toNat = some p.toNat → (g'.points : Int) = p) ∧
      (∀ p : Int, points = some p → 0 < p → p ≤ 2 ^ 53 → (g'.points : Int) = p) ∧
      ((points = none ∨ ∃ p : Int, points = some p ∧ p ≤ 0) → g'.points = g.points) := by
  obtain ⟨setPoints, hset, hsupplied, hkept⟩ := setPointsOf_finite points hpoints
  obtain hfields := setPointsOf_days points setPoints hset
  have hbounded : ∀ p : Int, points = some p → 0 < p → p < 10 ^ 21 →
      toNumber p.toNat = some p.toNat → ∀ goal, ((setPoints goal).points : Int) = p := by
    intro p hp hpos hlt hnum goal
    obtain ⟨x, hx, hgoal⟩ := hsupplied p hp hpos
    rw [hnum] at hx
    rw [hgoal goal, ← Option.some.inj hx, parseInt_of_lt p.toNat (by omega)]
    omega
  refine ⟨setPoints ((fun goal : Goal =>
      match goalName with
      | some name => if trim name ≠ "" then { goal with goalName := trim name } else goal
      | none => goal) g), ?_, ?_, ?_, ?_, ?_, ?_, ?_, ?_, ?_⟩
  · unfold updateGoal
    simp only [hfind, hgoals, goalById_append pre post g hpre, hset,
      modifyGoal_append pre post g _ hpre]
  · rw [(hfields _).1]
    cases goalName with
    | none => rfl
    | some name =>
      simp only
      split_ifs <;> rfl
  · rw [(hfields _).2.2]
    cases goalName with
    | none => rfl
    | some name =>
      simp only
      split_ifs <;> rfl
  · intro name hname hne
    subst hname
    rw [(hfields _).2.1]
    simp only [hne]
    simp [hne]
  · intro hname
    rw [(hfields _).2.1]
    rcases hname with rfl | ⟨name, rfl, hn⟩
    · rfl
    · simp only [hn]
      simp
  · intro p hp hpos
    obtain ⟨x, hx, hgoal⟩ := hsupplied p hp hpos
    exact ⟨x, hx, hgoal _⟩
  · intro p hp hpos hlt hnum
    exact hbounded p hp hpos hlt hnum _
  · intro p hp hpos hle
    exact hbounded p hp hpos (by omega) (toNumber_of_le _ (by omega)) _
  · intro hp
    rw [hkept hp]
    cases goalName with
    | none => rfl
    | some name =>
      simp only
      split_ifs <;> rfl

theorem updateGoal_fields_witness :
    ∃ g' : Goal,
      updateGoal [februaryJournal] 7 2024 2 readGoal.id (some " Write ") (some (-3)) =
        (save [februaryJournal] { februaryJournal with goals := [] ++ g' :: [] },
         Response.ok { februaryJournal with goals := [] ++ g' :: [] }) ∧
      g'.goalName = "Write" ∧ g'.points = 2 :=
  match updateGoal_fields [februaryJournal] 7 2024 2 februaryJournal [] [] readGoal
    (some " Write ") (some (-3)) (by decide) (by rfl) (by simp)
    (fun p hp => by cases hp; norm_num) with
  | ⟨g', h, _, _, hn, _, _, _, _, hp⟩ =>
    ⟨g', h, hn " Write " rfl (by decide), hp (Or.inr ⟨-3, rfl, by decide⟩)⟩

set_option exponentiation.threshold 1024 in
/-- C12 (counterexample): with supplied points 10^21 `updateGoal` sets the
points of the goal, which were 2, to 1: the number is written `1e+21` and
`parseInt` reads the digit before the `e`. -/
theorem updateGoal_points_exponent :
    (updateGoal [februaryJournal] 7 2024 2 100 none (some 1000000000000000000000)).2 =
      Response.ok { februaryJournal with goals := [{ readGoal with points := 1 }] } ∧
    readGoal.points = 2 := by
  decide

/-- C13 (failing input): `removeGoal` on a journal that does not hold the goal
answers 500 and leaves the store as it was, where `updateGoal` answers 404
'Goal not found'; without journal `removeGoal` answers 404. -/
theorem removeGoal_missing_goal :
    removeGoal [februaryJournal] 7 2024 2 999 = ([februaryJournal], Response.serverError) ∧
    updateGoal [februaryJournal] 7 2024 2 999 none none =
      ([februaryJournal], Response.notFound "Goal not found") ∧
    removeGoal [] 7 2024 2 999 = ([], Response.notFound "Journal not found") := by
  decide

/-- C6: `toggleDay` on a stored goal, for a day of the month, answers and saves
the journal in which the goal's `days` is the normalised form of the stored
`days` (cut or padded with `false` at the end to the length of the month) with
the flag at index `day - 1` negated and every other flag unchanged; the goal's
id, name and points and every other goal are as stored. -/
theorem toggleDay_flips_one_flag (store : Store) (userId : Nat) (year month : Int)
    (journal : Journal) (pre post : List Goal) (g : Goal) (d : Nat) (day : Int)
    (hfind : findOne store userId year month = some journal)
    (hgoals : journal.goals = pre ++ g :: post) (hpre : ∀ x ∈ pre, x.id ≠ g.id)
    (hd : getDaysInMonth month year = some d) (h1 : 1 ≤ day) (h2 : day ≤ d) :
    ∃ g' : Goal,
      toggleDay store userId year month g.id day =
        (save store { journal with goals := pre ++ g' :: post },
         Response.ok { journal with goals := pre ++ g' :: post }) ∧
      g'.id = g.id ∧ g'.goalName = g.goalName ∧ g'.points = g.points ∧
      g'.days.length = d ∧
      g'.days[(day - 1).toNat]? =
        some (!((g.days.take d ++ List.replicate (d - g.days.length) false).getD
          (day - 1).toNat false)) ∧
      ∀ k, k ≠ (day - 1).toNat →
        g'.days[k]? = (g.days.take d ++ List.replicate (d - g.days.length) false)[k]? := by
  have hlt : (day - 1).toNat < (normalizeDays g.days (some d)).length := by
    rw [normalizeDays_length]; omega
  refine ⟨_, toggleDay_of_goal store userId year month journal pre post g d day hfind hgoals
    hpre hd h1 h2, rfl, rfl, rfl, ?_, ?_, ?_⟩
  · simp [normalizeDays_length]
  · rw [← normalizeDays_some]
    generalize (day - 1).toNat = i at hlt
    simp [List.getElem?_set, hlt]
  · intro k hk
    rw [← normalizeDays_some]
    generalize (day - 1).toNat = i at hlt hk
    simp [List.getElem?_set, Ne.symm hk]

/-- C7: two successive `toggleDay` calls on the same goal and day leave the goal
with the normalised form of its stored `days`, so the flag at index `day - 1` is
the stored one (`false` when the stored sequence was too short to hold it); when
the stored sequence had the length of the month, the journal and the store are
what they were before the two calls. -/
theorem toggleDay_twice (store : Store) (userId : Nat) (year month : Int)
    (journal : Journal) (pre post : List Goal) (g : Goal) (d : Nat) (day : Int)
    (hfind : findOne store userId year month = some journal)
    (hgoals : journal.goals = pre ++ g :: post) (hpre : ∀ x ∈ pre, x.id ≠ g.id)
    (hd : getDaysInMonth month year = some d) (h1 : 1 ≤ day) (h2 : day ≤ d) :
    ∃ (j2 : Journal) (g2 : Goal),
      (toggleDay (toggleDay store userId year month g.id day).1
        userId year month g.id day).2 = Response.ok j2 ∧
      j2.goals = pre ++ g2 :: post ∧
      g2.days = g.days.take d ++ List.replicate (d - g.days.length) false ∧
      g2.days.getD (day - 1).toNat false = g.days.getD (day - 1).toNat false ∧
      (g.days.length = d →
        j2 = journal ∧
        (toggleDay (toggleDay store userId year month g.id day).1
          userId year month g.id day).1 = store) := by
  obtain ⟨hu, hy, hm⟩ := findOne_key hfind
  obtain ⟨ju, jy, jm, jgoals⟩ := journal
  simp only at hu hy hm hgoals
  subst hu hy hm hgoals
  have hlt : (day - 1).toNat < (normalizeDays g.days (some d)).length := by
    rw [normalizeDays_length]; omega
  have hlt' : (day - 1).toNat < d := by omega
  rw [toggleDay_of_goal store ju jy jm _ pre post g d day hfind rfl hpre hd h1 h2]
  simp only
  have hfind1 := findOne_save store { userId := ju, year := jy, month := jm
                                      goals := pre ++ { g with
            days := (normalizeDays g.days (some d)).set (day - 1).toNat
              (!((normalizeDays g.days (some d)).getD (day - 1).toNat false)) } :: post }
  simp only at hfind1
  have h2nd := toggleDay_of_goal _ ju jy jm _ pre post
    { g with
      days := (normalizeDays g.days (some d)).set (day - 1).toNat
        (!((normalizeDays g.days (some d)).getD (day - 1).toNat false)) } d day hfind1 rfl hpre hd
    h1 h2
  simp only at h2nd
  rw [h2nd]
  generalize (day - 1).toNat = i at hlt hlt'
  have hnorm : normalizeDays ((normalizeDays g.days (some d)).set i
        (!((normalizeDays g.days (some d)).getD i false))) (some d) =
      (normalizeDays g.days (some d)).set i
        (!((normalizeDays g.days (some d)).getD i false)) :=
    normalizeDays_of_length _ _ (by simp [normalizeDays_length])
  have hback : ((normalizeDays g.days (some d)).set i
        (!((normalizeDays g.days (some d)).getD i false))).set i
        (!(((normalizeDays g.days (some d)).set i
        (!((normalizeDays g.days (some d)).getD i false))).getD i false)) =
      normalizeDays g.days (some d) := by
    apply List.ext_getElem?
    intro k
    by_cases hk : i = k
    · subst hk
      simp [List.getElem?_set, hlt, List.getD_eq_getElem?_getD]
    · simp [List.getElem?_set, hk]
  rw [hnorm, hback]
  refine ⟨_, _, rfl, rfl, normalizeDays_some g.days d, ?_, ?_⟩
  · simp only
    rw [normalizeDays_some, List.getD_eq_getElem?_getD, List.getD_eq_getElem?_getD]
    by_cases hk : i < g.days.length
    · rw [List.getElem?_append_left (by simp; omega), List.getElem?_take]
      simp [hlt']
    · rw [List.getElem?_append_right (by simp; omega), List.getElem?_replicate]
      have : g.days[i]? = none := List.getElem?_eq_none (by omega)
      simp only [this, Option.getD_none]
      split_ifs <;> rfl
  · intro hlen
    have hg : ({ g with days := normalizeDays g.days (some d) } : Goal) = g := by
      rw [normalizeDays_of_length g.days d hlen]
    rw [hg]
    refine ⟨rfl, ?_⟩
    rw [save_save]
    · exact save_of_findOne hfind
    · rfl
    · rfl
    · rfl

/-- C8 (amended): `toggleDay` with a day below 1 or above the length of the
month never modifies the store; it answers 400 'Invalid day' when the journal
exists and holds the goal, and 404 when the journal or the goal is missing. -/
theorem toggleDay_invalid_day (store : Store) (userId : Nat) (year month : Int)
    (goalId : Nat) (d : Nat) (day : Int)
    (hd : getDaysInMonth month year = some d) (hday : day < 1 ∨ day > d) :
    (toggleDay store userId year month goalId day).1 = store ∧
    (∀ journal goal, findOne store userId year month = some journal →
      goalById journal.goals goalId = some goal →
      (toggleDay store userId year month goalId day).2 = Response.badRequest "Invalid day") ∧
    (findOne store userId year month = none →
      (toggleDay store userId year month goalId day).2 =
        Response.notFound "Journal not found") ∧
    (∀ journal, findOne store userId year month = some journal →
      goalById journal.goals goalId = none →
      (toggleDay store userId year month goalId day).2 =
        Response.notFound "Goal not found") := by
  have hcond : (day - 1 < 0 ∨ geDays (day - 1) (some d) = true) := by
    simp [geDays]; omega
  refine ⟨?_, ?_, ?_, ?_⟩
  · unfold toggleDay
    cases hf : findOne store userId year month with
    | none => simp
    | some journal =>
      cases hg : goalById journal.goals goalId with
      | none => simp [hg]
      | some goal =>
        simp only [hg, hd]
        rw [if_pos hcond]
  · intro journal goal hf hg
    unfold toggleDay
    simp only [hf, hg, hd]
    rw [if_pos hcond]
  · intro hf
    unfold toggleDay
    simp [hf]
  · intro journal hf hg
    unfold toggleDay
    simp [hf, hg]

theorem toggleDay_flips_one_flag_witness :
    ∃ g' : Goal,
      toggleDay [staleJournal] 7 2024 2 staleGoal.id 2 =
        (save [staleJournal] { staleJournal with goals := [] ++ g' :: [] },
         Response.ok { staleJournal with goals := [] ++ g' :: [] }) ∧
      g'.days.length = 29 ∧ g'.days[1]? = some true :=
  match toggleDay_flips_one_flag [staleJournal] 7 2024 2 staleJournal [] [] staleGoal 29 2
    (by decide) (by rfl) (by simp) (by decide) (by decide) (by decide) with
  | ⟨g', h, _, _, _, hlen, hflag, _⟩ => ⟨g', h, hlen, hflag⟩

theorem toggleDay_twice_witness :
    ∃ (j2 : Journal) (g2 : Goal),
      (toggleDay (toggleDay [februaryJournal] 7 2024 2 readGoal.id 3).1
        7 2024 2 readGoal.id 3).2 = Response.ok j2 ∧
      j2.goals = [] ++ g2 :: [] ∧
      g2.days.getD 2 false = readGoal.days.getD 2 false :=
  match toggleDay_twice [februaryJournal] 7 2024 2 februaryJournal [] [] readGoal 29 3
    (by decide) (by rfl) (by simp) (by decide) (by decide) (by decide) with
  | ⟨j2, g2, h, hgoals, _, hflag, _⟩ => ⟨j2, g2, h, hgoals, hflag⟩

/-- C8 (counterexample): with day 0 and no journal for the key, `toggleDay`
answers 404 'Journal not found', not 400; with the journal but not the goal it
answers 404 'Goal not found'. -/
theorem toggleDay_invalid_day_not_found :
    getDaysInMonth 2 2024 = some 29 ∧
    toggleDay [] 7 2024 2 100 0 = ([], Response.notFound "Journal not found") ∧
    toggleDay [februaryJournal] 7 2024 2 999 0 =
      ([februaryJournal], Response.notFound "Goal not found") := by
  decide

theorem toggleDay_invalid_day_witness :
    (toggleDay [februaryJournal] 7 2024 2 100 30).1 = [februaryJournal] ∧
    (toggleDay [februaryJournal] 7 2024 2 100 30).2 = Response.badRequest "Invalid day" :=
  have h := toggleDay_invalid_day [februaryJournal] 7 2024 2 100 29 30 (by decide) (by decide)
  ⟨h.1, h.2.1 februaryJournal readGoal (by decide) (by decide)⟩

theorem disciplinePercentageOf_le (a b : Nat) (hb : 1 ≤ b) (hab : a ≤ b) :
    disciplinePercentageOf a b ≤ 100 := by
  obtain ⟨hden, herr⟩ := percentage_error a b hb hab
  obtain ⟨hr, _⟩ := round_spec _ hden
  unfold disciplinePercentageOf
  rw [if_pos (by omega)]
  generalize ((Float64.divide a b).times 100).round = r at hr ⊢
  generalize ((Float64.divide a b).times 100).toRat = X at hr herr
  have hbq : (0 : ℚ) < b := by exact_mod_cast hb
  have hv : 100 * (a : ℚ) / b ≤ 100 := by
    rw [div_le_iff₀ hbq]
    have : (a : ℚ) ≤ b := by exact_mod_cast hab
    linarith
  rw [abs_le] at herr
  have hsmall : (300 : ℚ) / 2 ^ 53 < 1 / 2 := by norm_num
  have hlt : (r : ℚ) < 101 := by linarith [herr.2]
  have : r < 101 := by exact_mod_cast hlt
  omega

/-- The computed percentage is an integer nearest to the exact percentage when
the total is below 2^43. -/
theorem disciplinePercentageOf_nearest (a b : Nat) (hb : 1 ≤ b) (hab : a ≤ b)
    (hb43 : b < 2 ^ 43) :
    2 * (disciplinePercentageOf a b * b) ≤ 200 * a + b ∧
    200 * a ≤ 2 * (disciplinePercentageOf a b * b) + b := by
  obtain ⟨hden, herr⟩ := percentage_error a b hb hab
  obtain ⟨hr1, hr2⟩ := round_spec _ hden
  unfold disciplinePercentageOf
  rw [if_pos (by omega)]
  generalize ((Float64.divide a b).times 100).round = r at hr1 hr2 ⊢
  generalize ((Float64.divide a b).times 100).toRat = X at hr1 hr2 herr
  have hbq : (0 : ℚ) < b := by exact_mod_cast hb
  have hb43' : (b : ℚ) < 2 ^ 43 := by exact_mod_cast hb43
  have hv : 100 * (a : ℚ) / b * b = 100 * a := by field_simp
  rw [abs_le] at herr
  obtain ⟨hel, heu⟩ := herr
  have hup : (r : ℚ) * b ≤ (100 * (a : ℚ) / b + 300 / 2 ^ 53 + 1 / 2) * b :=
    mul_le_mul_of_nonneg_right (by linarith) (le_of_lt hbq)
  have hlo : (100 * (a : ℚ) / b - 300 / 2 ^ 53 + 1 / 2) * b < ((r : ℚ) + 1) * b :=
    mul_lt_mul_of_pos_right (by linarith) hbq
  rw [add_mul, add_mul, hv] at hup
  rw [add_mul, sub_mul, hv] at hlo
  have hsmall : (300 : ℚ) / 2 ^ 53 * b < 1 / 2 := by
    have : (300 : ℚ) / 2 ^ 53 * b < 300 / 2 ^ 53 * 2 ^ 43 :=
      mul_lt_mul_of_pos_left hb43' (by norm_num)
    have h2 : (300 : ℚ) / 2 ^ 53 * 2 ^ 43 < 1 / 2 := by norm_num
    linarith
  constructor
  · by_contra hcon
    have hc : 200 * a + b + 1 ≤ 2 * (r * b) := by omega
    have hc' : (200 : ℚ) * a + b + 1 ≤ 2 * (r * b) := by exact_mod_cast hc
    linarith
  · by_contra hcon
    have hc : 2 * (r * b) + b + 1 ≤ 200 * a := by omega
    have hc' : (2 : ℚ) * (r * b) + b + 1 ≤ 200 * a := by exact_mod_cast hc
    linarith

/-- An integer nearest to `100 a / b` is `round(100 a / b)`, unless the quotient
lies halfway between two integers and the integer is the lower one. -/
theorem nearest_eq_roundHalfUp (a b p : Nat) (hb : 1 ≤ b)
    (h1 : 2 * (p * b) ≤ 200 * a + b) (h2 : 200 * a ≤ 2 * (p * b) + b) :
    p = roundHalfUp (100 * a) b ∨
    (200 * a = (2 * p + 1) * b ∧ roundHalfUp (100 * a) b = p + 1) := by
  unfold roundHalfUp
  by_cases htie : 200 * a = 2 * (p * b) + b
  · right
    refine ⟨by rw [htie]; ring, ?_⟩
    apply Nat.div_eq_of_lt_le
    · have : (p + 1) * (2 * b) = 2 * (p * b) + 2 * b := by ring
      omega
    · have : (p + 1 + 1) * (2 * b) = 2 * (p * b) + 4 * b := by ring
      omega
  · left
    symm
    apply Nat.div_eq_of_lt_le
    · have : p * (2 * b) = 2 * (p * b) := by ring
      omega
    · have : (p + 1) * (2 * b) = 2 * (p * b) + 2 * b := by ring
      omega

theorem computeMonthStats_totals (journal : Journal) (d : Nat) :
    (computeMonthStats journal d).totalPossiblePoints =
      (journal.goals.map fun g => (if g.points = 0 then 1 else g.points) * d).sum ∧
    (computeMonthStats journal d).pointsAchieved =
      (journal.goals.map fun g =>
        (if g.points = 0 then 1 else g.points) * completedWithin g.days d).sum ∧
    (computeMonthStats journal d).completedDays =
      (journal.goals.map fun g => completedWithin g.days d).sum ∧
    (computeMonthStats journal d).disciplinePercentage =
      disciplinePercentageOf (computeMonthStats journal d).pointsAchieved
        (computeMonthStats journal d).totalPossiblePoints := by
  unfold computeMonthStats
  simp only [foldl_forEachGoal, Nat.zero_add, and_self]

/-! ## The single-month statistics -/

/-- C1 (counterexample): for two goals of one point over 20 days, one completed
on all 20 days and one on 3, the points achieved are 23 of 40 and the discipline
percentage is 57, where `round(100 * 23 / 40) = round(57.5)` is 58. -/
theorem computeMonthStats_half_rounds_down :
    (computeMonthStats halfwayJournal 20).pointsAchieved = 23 ∧
    (computeMonthStats halfwayJournal 20).totalPossiblePoints = 40 ∧
    (computeMonthStats halfwayJournal 20).disciplinePercentage = 57 ∧
    roundHalfUp (100 * 23) 40 = 58 := by
  decide

/-- C1 (amended): for a journal whose goals have points of at least 1 and an
effective day count `d` with the sum of `points * d` below 2^53, the total
possible points are that sum, the points achieved the sum of `points` times the
number of indices below `d` with a true flag, the completed days the sum of
these numbers; and for a total above 0 and below 2^43 the discipline percentage
is `round(100 * pointsAchieved / totalPossiblePoints)`, unless that quotient
lies halfway between two integers, where it is either this or the integer
below.  Below 2^53 the sums of the integers are the sums that JavaScript
computes. -/
theorem computeMonthStats_sums (journal : Journal) (d : Nat)
    (hpts : ∀ g ∈ journal.goals, 1 ≤ g.points)
    (hsafe : (journal.goals.map fun g => g.points * d).sum < 2 ^ 53) :
    (computeMonthStats journal d).totalPossiblePoints =
      (journal.goals.map fun g => g.points * d).sum ∧
    (computeMonthStats journal d).totalPossiblePoints < 2 ^ 53 ∧
    (computeMonthStats journal d).pointsAchieved =
      (journal.goals.map fun g => g.points * completedWithin g.days d).sum ∧
    (computeMonthStats journal d).pointsAchieved ≤
      (computeMonthStats journal d).totalPossiblePoints ∧
    (computeMonthStats journal d).completedDays =
      (journal.goals.map fun g => completedWithin g.days d).sum ∧
    (0 < (computeMonthStats journal d).totalPossiblePoints →
      (computeMonthStats journal d).totalPossiblePoints < 2 ^ 43 →
      (computeMonthStats journal d).disciplinePercentage =
        roundHalfUp (100 * (computeMonthStats journal d).pointsAchieved)
          (computeMonthStats journal d).totalPossiblePoints ∨
      (200 * (computeMonthStats journal d).pointsAchieved =
          (2 * (computeMonthStats journal d).disciplinePercentage + 1) *
            (computeMonthStats journal d).totalPossiblePoints ∧
        roundHalfUp (100 * (computeMonthStats journal d).pointsAchieved)
          (computeMonthStats journal d).totalPossiblePoints =
          (computeMonthStats journal d).disciplinePercentage + 1)) := by
  obtain ⟨ht, ha, hc, hp⟩ := computeMonthStats_totals journal d
  have hle : (computeMonthStats journal d).pointsAchieved ≤
      (computeMonthStats journal d).totalPossiblePoints := by
    rw [ht, ha]
    exact sum_achieved_le d journal.goals
  have ht' : (computeMonthStats journal d).totalPossiblePoints =
      (journal.goals.map fun g => g.points * d).sum := by
    rw [ht, map_points_congr journal.goals hpts]
  refine ⟨ht', ?_, ?_, hle, hc, ?_⟩
  · rw [ht']
    exact hsafe
  · rw [ha, map_points_congr journal.goals hpts]
  · intro hpos h43
    rw [hp]
    obtain ⟨h1, h2⟩ := disciplinePercentageOf_nearest _ _ hpos hle h43
    exact nearest_eq_roundHalfUp _ _ _ hpos h1 h2

theorem computeMonthStats_sums_witness :
    (computeMonthStats startedJournal 29).totalPossiblePoints = 58 ∧
    (computeMonthStats startedJournal 29).pointsAchieved = 6 ∧
    (computeMonthStats startedJournal 29).completedDays = 3 ∧
    (computeMonthStats startedJournal 29).disciplinePercentage = 10 :=
  have h := computeMonthStats_sums startedJournal 29 (by decide) (by decide)
  ⟨h.1, h.2.2.1, h.2.2.2.2.1, by decide⟩

/-- C2: the discipline percentage of the single-month statistics is an integer
from 0 to 100, it is 0 when the total possible points are 0, and the total is 0
for an empty goal list and for a day count of 0. -/
theorem computeMonthStats_percentage_range (journal : Journal) (d : Nat) :
    (computeMonthStats journal d).disciplinePercentage ≤ 100 ∧
    ((computeMonthStats journal d).totalPossiblePoints = 0 →
      (computeMonthStats journal d).disciplinePercentage = 0) ∧
    (journal.goals = [] ∨ d = 0 → (computeMonthStats journal d).totalPossiblePoints = 0) := by
  obtain ⟨ht, ha, _, hp⟩ := computeMonthStats_totals journal d
  have hle : (computeMonthStats journal d).pointsAchieved ≤
      (computeMonthStats journal d).totalPossiblePoints := by
    rw [ht, ha]
    exact sum_achieved_le d journal.goals
  refine ⟨?_, ?_, ?_⟩
  · rw [hp]
    by_cases h0 : (computeMonthStats journal d).totalPossiblePoints = 0
    · rw [h0]
      simp [disciplinePercentageOf]
    · exact disciplinePercentageOf_le _ _ (Nat.one_le_iff_ne_zero.2 h0) hle
  · intro h0
    rw [hp, h0]
    simp [disciplinePercentageOf]
  · intro h
    rw [ht]
    rcases h with h | h
    · simp [h]
    · subst h
      simp

theorem computeMonthStats_percentage_range_witness :
    (computeMonthStats { userId := 7, year := 2024, month := 2, goals := [] }
      29).totalPossiblePoints = 0 :=
  (computeMonthStats_percentage_range { userId := 7, year := 2024, month := 2, goals := [] }
    29).2.2 (Or.inl rfl)

/-! ## The history -/

theorem foldl_greatest (key : HistoryEntry → Nat) (results : List HistoryEntry) :
    (results.foldl (fun best current =>
        if key current > (match best with
          | some b => key b
          | none => 0) then some current else best) none = none ∧
      ∀ e ∈ results, key e = 0) ∨
    ∃ pre b post, results = pre ++ b :: post ∧
      results.foldl (fun best current =>
        if key current > (match best with
          | some b => key b
          | none => 0) then some current else best) none = some b ∧
      0 < key b ∧ (∀ e ∈ pre, key e < key b) ∧ (∀ e ∈ post, key e ≤ key b) := by
  induction results using List.reverseRecOn with
  | nil => left; simp
  | append_singleton l x ih =>
    rw [List.foldl_append]
    rcases ih with ⟨hnone, hzero⟩ | ⟨pre, b, post, hl, hsome, hpos, hpre, hpost⟩
    · rw [hnone]
      by_cases hx : key x > 0
      · right
        refine ⟨l, x, [], rfl, by simp [hx], hx, ?_, by simp⟩
        intro e he
        rw [hzero e he]
        exact hx
      · left
        refine ⟨by simp [hx], ?_⟩
        intro e he
        rcases List.mem_append.1 he with he | he
        · exact hzero e he
        · simp only [List.mem_singleton] at he
          subst he
          omega
    · rw [hsome]
      right
      by_cases hx : key x > key b
      · refine ⟨l, x, [], rfl, by simp [hx], by omega, ?_, by simp⟩
        intro e he
        rw [hl] at he
        rcases List.mem_append.1 he with he | he
        · have := hpre e he
          omega
        · rcases List.mem_cons.1 he with rfl | he
          · exact hx
          · have := hpost e he
            omega
      · refine ⟨pre, b, post ++ [x], by simp [hl], by simp [hx], hpos, hpre, ?_⟩
        intro e he
        rcases List.mem_append.1 he with he | he
        · exact hpost e he
        · simp only [List.mem_singleton] at he
          subst he
          omega

theorem foldl_betterMonth (results : List HistoryEntry) :
    (results.foldl betterMonth none = none ∧ ∀ e ∈ results, e.disciplinePercentage = 0) ∨
    ∃ pre b post, results = pre ++ b :: post ∧ results.foldl betterMonth none = some b ∧
      0 < b.disciplinePercentage ∧
      (∀ e ∈ pre, e.disciplinePercentage < b.disciplinePercentage) ∧
      (∀ e ∈ post, e.disciplinePercentage ≤ b.disciplinePercentage) :=
  foldl_greatest (fun e => e.disciplinePercentage) results

theorem foldl_moreConsistentMonth (results : List HistoryEntry) :
    (results.foldl moreConsistentMonth none = none ∧ ∀ e ∈ results, e.completedDays = 0) ∨
    ∃ pre b post, results = pre ++ b :: post ∧
      results.foldl moreConsistentMonth none = some b ∧
      0 < b.completedDays ∧
      (∀ e ∈ pre, e.completedDays < b.completedDays) ∧
      (∀ e ∈ post, e.completedDays ≤ b.completedDays) :=
  foldl_greatest (fun e => e.completedDays) results

/-- C15: in an answered history with an entry of discipline percentage above 0,
`bestMonth` is an entry of the history whose percentage no entry exceeds and
which every more recent entry stays below; likewise `mostConsistentMonth` for
the completed days, when an entry has completed days. -/
theorem computeHistory_best (store : Store) (userId : Nat) (today : Today) (months : Int)
    (history : List HistoryEntry) (bestMonth mostConsistentMonth : Option HistoryEntry)
    (h : computeHistory store userId today months =
      HistoryResponse.ok history bestMonth mostConsistentMonth) :
    ((∃ e ∈ history, 0 < e.disciplinePercentage) →
      ∃ older b newer, history = older ++ b :: newer ∧ bestMonth = some b ∧
        (∀ e ∈ newer, e.disciplinePercentage < b.disciplinePercentage) ∧
        (∀ e ∈ older, e.disciplinePercentage ≤ b.disciplinePercentage)) ∧
    ((∃ e ∈ history, 0 < e.completedDays) →
      ∃ older b newer, history = older ++ b :: newer ∧ mostConsistentMonth = some b ∧
        (∀ e ∈ newer, e.completedDays < b.completedDays) ∧
        (∀ e ∈ older, e.completedDays ≤ b.completedDays)) := by
  unfold computeHistory at h
  cases hloop : historyLoop store userId today months.toNat 0 [] with
  | none => simp [hloop] at h
  | some results =>
    simp only [hloop, HistoryResponse.ok.injEq] at h
    obtain ⟨rfl, rfl, rfl⟩ := h
    constructor
    · rintro ⟨e, he, hpos⟩
      rcases foldl_betterMonth results with ⟨_, hzero⟩ | ⟨pre, b, post, hl, hsome, _, hpre, hpost⟩
      · have := hzero e (List.mem_reverse.1 he)
        omega
      · refine ⟨post.reverse, b, pre.reverse, by simp [hl], hsome, ?_, ?_⟩
        · intro x hx
          exact hpre x (List.mem_reverse.1 hx)
        · intro x hx
          exact hpost x (List.mem_reverse.1 hx)
    · rintro ⟨e, he, hpos⟩
      rcases foldl_moreConsistentMonth results with
        ⟨_, hzero⟩ | ⟨pre, b, post, hl, hsome, _, hpre, hpost⟩
      · have := hzero e (List.mem_reverse.1 he)
        omega
      · refine ⟨post.reverse, b, pre.reverse, by simp [hl], hsome, ?_, ?_⟩
        · intro x hx
          exact hpre x (List.mem_reverse.1 hx)
        · intro x hx
          exact hpost x (List.mem_reverse.1 hx)

theorem computeHistory_best_witness :
    (∃ older newer,
      [januaryEntry, februaryEntry, marchEntry] = older ++ februaryEntry :: newer ∧
      (∀ e ∈ newer, e.disciplinePercentage < februaryEntry.disciplinePercentage) ∧
      (∀ e ∈ older, e.disciplinePercentage ≤ februaryEntry.disciplinePercentage)) ∧
    januaryEntry.disciplinePercentage = februaryEntry.disciplinePercentage ∧
    (∃ older newer,
      [januaryEntry, februaryEntry, marchEntry] = older ++ februaryEntry :: newer ∧
      (∀ e ∈ newer, e.completedDays < februaryEntry.completedDays) ∧
      (∀ e ∈ older, e.completedDays ≤ februaryEntry.completedDays)) :=
  have h := computeHistory_best [januaryJournal, startedJournal] 7
    { year := 2024, month := 2, date := 15 } 3
    [januaryEntry, februaryEntry, marchEntry] (some februaryEntry) (some februaryEntry)
    (by decide)
  ⟨match h.1 ⟨februaryEntry, by decide, by decide⟩ with
    | ⟨older, _, newer, hsplit, hb, hnew, hold⟩ => by
      cases hb
      exact ⟨older, newer, hsplit, hnew, hold⟩,
   by decide,
   match h.2 ⟨februaryEntry, by decide, by decide⟩ with
    | ⟨older, _, newer, hsplit, hb, hnew, hold⟩ => by
      cases hb
      exact ⟨older, newer, hsplit, hnew, hold⟩⟩

/-- The entry of the history for the month `k` months before the current one. -/
theorem computeHistory_getElem? (store : Store) (userId : Nat) (today : Today) (n : Nat)
    (hy : 100 ≤ today.year) (hhi : today.year ≤ 275759)
    (hm0 : 0 ≤ today.month) (hm11 : today.month ≤ 11)
    (hn : (n : Int) ≤ 12 * (today.year + 271820)) :
    ∃ history best most,
      computeHistory store userId today n = HistoryResponse.ok history best most ∧
      history.length = n ∧
      best = (history.reverse.foldl betterMonth none) ∧
      most = (history.reverse.foldl moreConsistentMonth none) ∧
      ∀ k, k < n → history[n - 1 - k]? =
        some (historyEntry store userId (today.year + (today.month - (k : Int)) / 12)
          ((today.month - (k : Int)) % 12 + 1)) := by
  refine ⟨_, _, _, computeHistory_eq store userId today n hy hhi hm0 hm11 hn, by simp,
    by simp, by simp, ?_⟩
  intro k hk
  rw [List.getElem?_reverse (by simp; omega)]
  simp only [List.length_map, List.length_range', List.getElem?_map]
  rw [List.getElem?_range' 0 1 (by omega)]
  simp only [Option.map_some', Nat.zero_add, Nat.one_mul]
  congr 3 <;> congr 2 <;> omega

/-- C14 (amended): for a current date of a year from 100 to 275759 and a window
of `n ≥ 1` months that does not reach back beyond year -271820, the history has
`n` entries with months 1..12, its last entry is the current month, and every
entry is followed by the next calendar month. -/
theorem computeHistory_window (store : Store) (userId : Nat) (today : Today) (n : Nat)
    (hy : 100 ≤ today.year) (hhi : today.year ≤ 275759)
    (hm0 : 0 ≤ today.month) (hm11 : today.month ≤ 11) (hn1 : 1 ≤ n)
    (hn : (n : Int) ≤ 12 * (today.year + 271820)) :
    ∃ history best most,
      computeHistory store userId today n = HistoryResponse.ok history best most ∧
      history.length = n ∧
      (∀ e ∈ history, 1 ≤ e.month ∧ e.month ≤ 12) ∧
      (∃ e, history.getLast? = some e ∧ e.year = today.year ∧ e.month = today.month + 1) ∧
      ∀ k, k + 1 < n → ∃ a b, history[k]? = some a ∧ history[k + 1]? = some b ∧
        (a.month < 12 → b.year = a.year ∧ b.month = a.month + 1) ∧
        (a.month = 12 → b.year = a.year + 1 ∧ b.month = 1) := by
  obtain ⟨history, best, most, h, hlen, _, _, hget⟩ :=
    computeHistory_getElem? store userId today n hy hhi hm0 hm11 hn
  refine ⟨history, best, most, h, hlen, ?_, ?_, ?_⟩
  · intro e he
    obtain ⟨i, hi, hie⟩ := List.getElem_of_mem he
    have hi' : i < n := by omega
    have := hget (n - 1 - i) (by omega)
    have hidx : n - 1 - (n - 1 - i) = i := by omega
    rw [hidx, List.getElem?_eq_getElem hi, hie] at this
    have he' := Option.some.inj this
    rw [he', (historyEntry_year_month store userId _ _).2]
    omega
  · have := hget 0 (by omega)
    rw [List.getLast?_eq_getElem?, hlen]
    refine ⟨_, this, ?_, ?_⟩
    · rw [(historyEntry_year_month store userId _ _).1]
      simp only [Nat.cast_zero, sub_zero]
      omega
    · rw [(historyEntry_year_month store userId _ _).2]
      simp only [Nat.cast_zero, sub_zero]
      omega
  · intro k hk
    have ha := hget (n - 1 - k) (by omega)
    have hb := hget (n - 2 - k) (by omega)
    have hidxa : n - 1 - (n - 1 - k) = k := by omega
    have hidxb : n - 1 - (n - 2 - k) = k + 1 := by omega
    rw [hidxa] at ha
    rw [hidxb] at hb
    refine ⟨_, _, ha, hb, ?_, ?_⟩
    · rw [(historyEntry_year_month store userId _ _).1,
        (historyEntry_year_month store userId _ _).2,
        (historyEntry_year_month store userId _ _).1,
        (historyEntry_year_month store userId _ _).2]
      intro hlt
      have e1 : ((n - 1 - k : Nat) : Int) = (n : Int) - 1 - k := by omega
      have e2 : ((n - 2 - k : Nat) : Int) = (n : Int) - 2 - k := by omega
      rw [e1, e2] at *
      omega
    · rw [(historyEntry_year_month store userId _ _).1,
        (historyEntry_year_month store userId _ _).2,
        (historyEntry_year_month store userId _ _).1,
        (historyEntry_year_month store userId _ _).2]
      intro heq
      have e1 : ((n - 1 - k : Nat) : Int) = (n : Int) - 1 - k := by omega
      have e2 : ((n - 2 - k : Nat) : Int) = (n : Int) - 2 - k := by omega
      rw [e1, e2] at *
      omega

theorem computeHistory_window_witness :
    ∃ history best most,
      computeHistory [startedJournal] 7 { year := 2024, month := 1, date := 15 } (3 : Nat) =
        HistoryResponse.ok history best most ∧
      history.length = 3 ∧
      ∃ e, history.getLast? = some e ∧ e.year = 2024 ∧ e.month = 1 + 1 :=
  match computeHistory_window [startedJournal] 7 { year := 2024, month := 1, date := 15 } 3
    (by decide) (by decide) (by decide) (by decide) (by decide) (by decide) with
  | ⟨history, best, most, h, hlen, _, hlast, _⟩ => ⟨history, best, most, h, hlen, hlast⟩

theorem historyEntry_no_journal (store : Store) (userId : Nat) (year month : Int)
    (h : findOne store userId year month = none) :
    (historyEntry store userId year month).totalPossiblePoints = some 0 ∧
    (historyEntry store userId year month).pointsAchieved = 0 ∧
    (historyEntry store userId year month).disciplinePercentage = 0 ∧
    (historyEntry store userId year month).completedDays = 0 := by
  unfold historyEntry
  rw [h]
  cases getDaysInMonth month year <;> simp [disciplinePercentageOf]

/-- C16 (amended): for a user without journal in any of the `n` months of the
window, a current date of a year from 100 to 275759 and a window of `n ≥ 1`
months that does not reach back beyond year -271820, the history has `n` entries
whose total possible points, points achieved, discipline percentage and
completed days are 0, and `bestMonth` and `mostConsistentMonth` are both
`null`. -/
theorem computeHistory_no_journal (store : Store) (userId : Nat) (today : Today) (n : Nat)
    (hy : 100 ≤ today.year) (hhi : today.year ≤ 275759)
    (hm0 : 0 ≤ today.month) (hm11 : today.month ≤ 11) (hn1 : 1 ≤ n)
    (hn : (n : Int) ≤ 12 * (today.year + 271820))
    (hnone : ∀ k : Nat, k < n →
      findOne store userId (today.year + (today.month - (k : Int)) / 12)
        ((today.month - (k : Int)) % 12 + 1) = none) :
    ∃ history,
      computeHistory store userId today n = HistoryResponse.ok history none none ∧
      history.length = n ∧
      ∀ e ∈ history, e.totalPossiblePoints = some 0 ∧ e.pointsAchieved = 0 ∧
        e.disciplinePercentage = 0 ∧ e.completedDays = 0 := by
  obtain ⟨history, best, most, h, hlen, hbest, hmost, hget⟩ :=
    computeHistory_getElem? store userId today n hy hhi hm0 hm11 hn
  have hzero : ∀ e ∈ history, e.totalPossiblePoints = some 0 ∧ e.pointsAchieved = 0 ∧
      e.disciplinePercentage = 0 ∧ e.completedDays = 0 := by
    intro e he
    obtain ⟨i, hi, hie⟩ := List.getElem_of_mem he
    have := hget (n - 1 - i) (by omega)
    have hidx : n - 1 - (n - 1 - i) = i := by omega
    rw [hidx, List.getElem?_eq_getElem hi, hie] at this
    rw [Option.some.inj this]
    exact historyEntry_no_journal store userId _ _ (hnone (n - 1 - i) (by omega))
  have hb : best = none := by
    rw [hbest]
    rcases foldl_betterMonth history.reverse with ⟨hn', _⟩ | ⟨pre, b, post, hl, _, hpos, _, _⟩
    · exact hn'
    · have hmem : b ∈ history := by
        apply List.mem_reverse.1
        rw [hl]
        simp
      have := (hzero b hmem).2.2.1
      omega
  have hm : most = none := by
    rw [hmost]
    rcases foldl_moreConsistentMonth history.reverse with
      ⟨hn', _⟩ | ⟨pre, b, post, hl, _, hpos, _, _⟩
    · exact hn'
    · have hmem : b ∈ history := by
        apply List.mem_reverse.1
        rw [hl]
        simp
      have := (hzero b hmem).2.2.2
      omega
  subst hb hm
  exact ⟨history, h, hlen, hzero⟩

theorem computeHistory_no_journal_witness :
    ∃ history,
      computeHistory [overlongJournal] 7 { year := 2024, month := 0, date := 15 } (3 : Nat) =
        HistoryResponse.ok history none none ∧
      history.length = 3 :=
  match computeHistory_no_journal [overlongJournal] 7 { year := 2024, month := 0, date := 15 } 3
    (by decide) (by decide) (by decide) (by decide) (by decide) (by decide)
    (fun k hk => by interval_cases k <;> decide) with
  | ⟨history, h, hlen, _⟩ => ⟨history, h, hlen⟩

/-- C16 (counterexample): for a user without journal and a window of 3 months
the history has three zero entries and `bestMonth` and `mostConsistentMonth` are
`null`, not the entry of the current month. -/
theorem computeHistory_no_journal_null :
    computeHistory [] 7 { year := 2024, month := 0, date := 15 } 3 =
      HistoryResponse.ok
        [{ year := 2023, month := 11, totalPossiblePoints := some 0, pointsAchieved := 0,
           disciplinePercentage := 0, completedDays := 0, totalDays := some 30,
           totalGoals := 0 },
         { year := 2023, month := 12, totalPossiblePoints := some 0, pointsAchieved := 0,
           disciplinePercentage := 0, completedDays := 0, totalDays := some 31,
           totalGoals := 0 },
         { year := 2024, month := 1, totalPossiblePoints := some 0, pointsAchieved := 0,
           disciplinePercentage := 0, completedDays := 0, totalDays := some 31,
           totalGoals := 0 }]
        none none := by
  decide

/-- C17 (failing input): for February 2023, a month of 28 days, and a stored
goal with 29 completed flags, the entry of the history counts 29 points and 29
completed days, while the single-month statistics with 28 days count 28 and
28. -/
theorem historyEntry_counts_beyond_month :
    getDaysInMonth 2 2023 = some 28 ∧
    (historyEntry [overlongJournal] 7 2023 2).pointsAchieved = 29 ∧
    (historyEntry [overlongJournal] 7 2023 2).completedDays = 29 ∧
    (computeMonthStats overlongJournal 28).pointsAchieved = 28 ∧
    (computeMonthStats overlongJournal 28).completedDays = 28 := by
  decide

/-- C18 (failing input): for February 2023 and a stored goal with 29 completed
flags, the entry of the history has 28 possible points and a discipline
percentage of 104. -/
theorem historyEntry_percentage_above_100 :
    computeHistory [overlongJournal] 7 { year := 2023, month := 1, date := 28 } 1 =
      HistoryResponse.ok
        [{ year := 2023, month := 2, totalPossiblePoints := some 28, pointsAchieved := 29,
           disciplinePercentage := 104, completedDays := 29, totalDays := some 28,
           totalGoals := 1 }]
        (some { year := 2023, month := 2, totalPossiblePoints := some 28, pointsAchieved := 29,
                disciplinePercentage := 104, completedDays := 29, totalDays := some 28,
                totalGoals := 1 })
        (some { year := 2023, month := 2, totalPossiblePoints := some 28, pointsAchieved := 29,
                disciplinePercentage := 104, completedDays := 29, totalDays := some 28,
                totalGoals := 1 }) := by
  decide

/-- C19 (failing input): on 15 March 2024 the statistics of March 2024 report
31 total days for a user without journal, and 15, the day of the month, for a
user with a journal. -/
theorem journalAnalytics_total_days_current_month :
    (journalAnalytics [] 7 2024 3 { year := 2024, month := 2, date := 15 }).totalDays =
      some 31 ∧
    (journalAnalytics [{ userId := 7, year := 2024, month := 3, goals := [] }] 7 2024 3
      { year := 2024, month := 2, date := 15 }).totalDays = some 15 := by
  decide

theorem computeHistory_serverError (store : Store) (userId : Nat) (today : Today)
    (months : Int) (k : Nat) (hk : (k : Int) < months)
    (hdate : makeDate today.year (today.month - k) 1 = none) :
    computeHistory store userId today months = HistoryResponse.serverError := by
  unfold computeHistory
  rw [historyLoop_none store userId today months.toNat 0 [] k (Nat.zero_le _) (by omega) hdate]

/-- C14 (counterexample): in January 2024 a window of 3 300 000 months reaches
back to year -272976, before the first `Date`; the date of its last iteration is
invalid and the request fails with status 500 instead of answering a history. -/
theorem computeHistory_window_out_of_range :
    computeHistory [] 7 { year := 2024, month := 0, date := 15 } 3300000 =
      HistoryResponse.serverError :=
  computeHistory_serverError [] 7 { year := 2024, month := 0, date := 15 } 3300000 3299999
    (by norm_num) (by decide)

end StayDiscipline
